import Mathlib

/-!
# go-lnd: the REST client of `lnd.go`

A shallow embedding of `src/lnd.go` and of the library calls it makes.

* A Go `string`, and a byte slice that holds text (a response body, a
  serialized request body), is a Lean `String`; the scans of the libraries
  run over its characters.  Where a library counts bytes (the four places
  after `\u` in gjson, a `%XX` of net/url) the embedding counts the UTF-8
  bytes of the characters; a decoded URL path is a byte string.  Raw file
  contents are `List UInt8`.
* A Go result pair `(*T, error)` of which exactly one part is non-nil is an
  `Except GoError T`; a pair `(T, error)` with a value part keeps both parts.
* What the operating system, the network, the X.509 verifier, the text
  routines of `strconv` (floats, quoting) and the authority syntax of
  net/url do is not in the repository: it is the parameter `World`, over
  which every statement is quantified.
* `log.Fatal` ends the process: `Outcome.fatal`.
-/

set_option autoImplicit false

/-! ## Go values -/

deriving instance DecidableEq for Except

/-- A Go `error` value, as the text its `Error()` method returns. -/
structure GoError where
  msg : String
deriving DecidableEq, Repr

/-- An IEEE-754 binary64 value (`float64`), as its 64-bit pattern. -/
structure Float64 where
  bits : Nat
deriving DecidableEq, Repr

namespace Float64

/-- The sign bit. -/
def sign (f : Float64) : Nat := (f.bits / 2 ^ 63) % 2

/-- The 11-bit biased exponent. -/
def exponent (f : Float64) : Nat := (f.bits / 2 ^ 52) % 2 ^ 11

/-- The 52-bit fraction. -/
def fraction (f : Float64) : Nat := f.bits % 2 ^ 52

/-- `math.IsNaN(f)`: exponent all ones, fraction not zero. -/
def IsNaN (f : Float64) : Bool := f.exponent == 2047 && f.fraction != 0

/-- `math.IsInf(f, 0)`: exponent all ones, fraction zero. -/
def IsInf (f : Float64) : Bool := f.exponent == 2047 && f.fraction == 0

/-- The value `10.0`. -/
def ten : Float64 := ⟨0x4024000000000000⟩

end Float64

/-- The dynamic values this repository stores in a `map[string]interface{}`:
`int` (CreateInvoice's value, the constant 60), `string` and `float64`. -/
inductive Value where
  | int (n : Int)
  | string (s : String)
  | float64 (f : Float64)
deriving DecidableEq, Repr

/-- A `map[string]interface{}` argument: `none` is the nil map, `some kvs` a
map with the entries `kvs` (a Go map literal has pairwise distinct keys). -/
abbrev Params := Option (List (String × Value))

/-- How a call that may end the process comes back: it returns, or
`log.Fatal(err)` printed `err` and exited. -/
inductive Outcome (α : Type) where
  | returned (a : α)
  | fatal (err : GoError)
deriving DecidableEq, Repr

/-! ## unicode/utf8 -/

namespace utf8

/-- `utf8.RuneLen(c)`: the number of bytes of a character in a Go string. -/
def RuneLen (c : Char) : Nat :=
  if c.toNat < 0x80 then 1
  else if c.toNat < 0x800 then 2
  else if c.toNat < 0x10000 then 3
  else 4

/-- `utf8.AppendRune(nil, c)`: the bytes of a character. -/
def AppendRune (c : Char) : List UInt8 :=
  if c.toNat < 0x80 then [UInt8.ofNat c.toNat]
  else if c.toNat < 0x800 then
    [UInt8.ofNat (0xc0 + c.toNat / 64), UInt8.ofNat (0x80 + c.toNat % 64)]
  else if c.toNat < 0x10000 then
    [UInt8.ofNat (0xe0 + c.toNat / 4096), UInt8.ofNat (0x80 + c.toNat / 64 % 64),
      UInt8.ofNat (0x80 + c.toNat % 64)]
  else
    [UInt8.ofNat (0xf0 + c.toNat / 262144), UInt8.ofNat (0x80 + c.toNat / 4096 % 64),
      UInt8.ofNat (0x80 + c.toNat / 64 % 64), UInt8.ofNat (0x80 + c.toNat % 64)]

/-- The conversion `[]byte(s)` of a text. -/
def bytes (s : List Char) : List UInt8 := s.flatMap AppendRune

/-- The length `len(s)` of a text in bytes. -/
def len : List Char → Nat
  | [] => 0
  | c :: cs => RuneLen c + len cs

end utf8

/-! ## encoding/hex -/

namespace hex

/-- The constant `hextable`. -/
def hextable : List Char := "0123456789abcdef".toList

/-- One step of the loop of `hex.Encode`: `hextable[v>>4]`, `hextable[v&0x0f]`. -/
def encodeByte (v : UInt8) : List Char :=
  [hextable.getD (v.toNat / 16) '0', hextable.getD (v.toNat % 16) '0']

/-- The loop of `hex.Encode` over `src`. -/
def Encode : List UInt8 → List Char
  | [] => []
  | v :: src => encodeByte v ++ Encode src

/-- `hex.EncodeToString(src)`. -/
def EncodeToString (src : List UInt8) : String := String.mk (Encode src)

end hex

/-! ## fmt: `Errorf` with a format and no operands -/

namespace fmt

/-- `tooLarge(x)`. -/
def tooLarge (x : Nat) : Bool := x > 1000000

/-- The loop of `parsenum(s, start, end)` over the text from `start` to `end`:
the number read, whether a digit was read, and the text left.  On overflow
`parsenum` returns `end` as the new index: nothing is left. -/
def parsenum : List Char → Nat → Bool → Nat × Bool × List Char
  | [], num, isnum => (num, isnum, [])
  | c :: cs, num, isnum =>
    if '0' ≤ c ∧ c ≤ '9' then
      if tooLarge num then (0, false, [])
      else parsenum cs (num * 10 + (c.toNat - '0'.toNat)) true
    else (num, isnum, c :: cs)

/-- `parseArgNumber(format)` for a text that starts with `[`: the width of
the bracketed part and whether it holds a number (`wid`, `ok`); the index it
also returns is of no use without operands. -/
def parseArgNumber (format : List Char) : Nat × Bool :=
  if format.length < 3 then (1, false)
  else
    let inner := (format.drop 1).takeWhile (fun c => c != ']')
    if 1 + inner.length < format.length then
      -- the closing bracket stands at index `1 + inner.length`
      let r := parsenum inner 0 false
      if !r.2.1 || r.2.2 != [] then (1 + inner.length + 1, false)
      else (1 + inner.length + 1, true)
    else (1, false)

/-- `(*pp).argNumber` when there are no operands: the text left, `found`, and
whether `goodArgNum` survives (an index can never be in range). -/
def argNumber (format : List Char) : List Char × Bool × Bool :=
  match format with
  | '[' :: _ =>
    let r := parseArgNumber format
    (format.drop r.1, r.2, false)
  | _ => (format, false, true)

/-- The flag loop `simpleFormat` of `doPrintf`; without operands its fast
path for a lower-case verb is never taken. -/
def skipFlags : List Char → List Char
  | [] => []
  | c :: cs =>
    if c = '#' ∨ c = '0' ∨ c = '+' ∨ c = '-' ∨ c = ' ' then skipFlags cs else c :: cs

/-- One pass of the body of `formatLoop` after a `%` was read, without
operands: what is written and the format text left. -/
def verb (format : List Char) : List Char × List Char :=
  let s1 := skipFlags format
  -- explicit argument index?
  let a1 := argNumber s1
  -- width
  let w : List Char × List Char × Bool :=
    match a1.1 with
    | '*' :: t => ("%!(BADWIDTH)".toList, t, false)
    | s => ([], (parsenum s 0 false).2.2, a1.2.1)
  -- precision
  let p : List Char × List Char × Bool × Bool :=
    match w.2.1 with
    | '.' :: c :: t =>
      -- `i+1 < end && format[i] == '.'`: a dot that ends the format is the verb
      let a2 := argNumber (c :: t)
      match a2.1 with
      | '*' :: t2 => ("%!(BADPREC)".toList, t2, false, a2.2.2)
      | s => ([], (parsenum s 0 false).2.2, a2.2.1, a2.2.2)
    | s => ([], s, w.2.2, true)
  let a3 : List Char × Bool × Bool := if p.2.2.1 then (p.2.1, true, true) else argNumber p.2.1
  let goodArgNum := a1.2.2 && p.2.2.2 && a3.2.2
  match a3.1 with
  | [] => (w.1 ++ p.1 ++ "%!(NOVERB)".toList, [])
  | v :: rest =>
    if v = '%' then (w.1 ++ p.1 ++ ['%'], rest)
    else if !goodArgNum then (w.1 ++ p.1 ++ "%!".toList ++ [v] ++ "(BADINDEX)".toList, rest)
    else (w.1 ++ p.1 ++ "%!".toList ++ [v] ++ "(MISSING)".toList, rest)

/-- The loop `formatLoop` of `(*pp).doPrintf(format, a)` with no operands:
text up to the next `%` is copied, then one verb is processed.  `fuel` bounds
the number of steps; the length of the format is enough. -/
def doPrintf : Nat → List Char → List Char
  | 0, _ => []
  | _, [] => []
  | fuel + 1, c :: cs =>
    if c = '%' then
      let r := verb cs
      r.1 ++ doPrintf fuel r.2
    else c :: doPrintf fuel cs

/-- `fmt.Sprintf(format)` with no operands. -/
def Sprintf (format : String) : String :=
  String.mk (doPrintf format.length format.toList)

/-- `fmt.Errorf(format)` with no operands: an error whose text is the
formatted string. -/
def Errorf (format : String) : GoError := ⟨Sprintf format⟩

end fmt

/-! ## encoding/json: `Marshal` of a `map[string]interface{}` -/

namespace json

/-- Membership in `htmlSafeSet`: the ASCII characters from the space on,
without the double quote, `&`, `<`, `>` and the backslash. -/
def htmlSafe (c : Char) : Bool :=
  32 ≤ c.toNat && c.toNat < 128 && c != '"' && c != '&' && c != '<' && c != '>' && c != '\\'

/-- The text `appendString` (with `escapeHTML` set, as `Marshal` sets it)
writes for one character of a string (Go 1.22 and later, which write a
backspace and a form feed as `\b` and `\f`). -/
def escapeChar (c : Char) : List Char :=
  if c.toNat < 128 then
    if htmlSafe c then [c]
    else if c = '\\' ∨ c = '"' then ['\\', c]
    else if c.toNat = 8 then ['\\', 'b']
    else if c.toNat = 12 then ['\\', 'f']
    else if c = '\n' then ['\\', 'n']
    else if c = '\r' then ['\\', 'r']
    else if c = '\t' then ['\\', 't']
    else ['\\', 'u', '0', '0', hex.hextable.getD (c.toNat / 16) '0',
      hex.hextable.getD (c.toNat % 16) '0']
  else if c.toNat = 0x2028 ∨ c.toNat = 0x2029 then
    ['\\', 'u', '2', '0', '2', hex.hextable.getD (c.toNat % 16) '0']
  else [c]

/-- `appendString(dst, src, true)`: the JSON string literal of `src`. -/
def appendString (src : String) : String :=
  String.mk ('"' :: (src.toList.flatMap escapeChar ++ ['"']))

/-- The order `strings.Compare(a, b) < 0` of the keys: lexicographic (by
code point, which on UTF-8 text is the order of the bytes). -/
def less : List Char → List Char → Bool
  | [], [] => false
  | [], _ :: _ => true
  | _ :: _, [] => false
  | a :: as, b :: bs =>
    if a.toNat < b.toNat then true
    else if b.toNat < a.toNat then false
    else less as bs

/-- Insertion of one entry into a key-sorted list of entries. -/
def insertEntry (e : String × Value) : List (String × Value) → List (String × Value)
  | [] => [e]
  | x :: xs => if less e.1.toList x.1.toList then e :: x :: xs else x :: insertEntry e xs

/-- The entries of a map in the order `mapEncoder` writes them: sorted by key. -/
def sortEntries : List (String × Value) → List (String × Value)
  | [] => []
  | e :: es => insertEntry e (sortEntries es)

/-- The text of `*UnsupportedValueError` for a float that is NaN or infinite. -/
def unsupportedValue (f : Float64) : GoError :=
  ⟨"json: unsupported value: " ++
    (if f.IsNaN then "NaN" else if f.sign = 0 then "+Inf" else "-Inf")⟩

/-- The encoder of one `interface{}` value: `intEncoder`, `stringEncoder`,
`floatEncoder`.  `floatText` is the text `strconv.AppendFloat` gives the
float encoder for a finite value. -/
def encodeValue (floatText : Float64 → String) : Value → Except GoError String
  | .int n => .ok (toString n)
  | .string s => .ok (appendString s)
  | .float64 f =>
    if f.IsInf || f.IsNaN then .error (unsupportedValue f) else .ok (floatText f)

/-- The loop of `mapEncoder.encode` over the sorted entries: a comma before
every entry but the first, then key, colon, value. -/
def encodeEntries (floatText : Float64 → String) :
    List (String × Value) → Bool → Except GoError String
  | [], _ => .ok ""
  | (k, v) :: rest, first =>
    match encodeValue floatText v with
    | .error err => .error err
    | .ok text =>
      match encodeEntries floatText rest false with
      | .error err => .error err
      | .ok more => .ok ((if first then "" else ",") ++ appendString k ++ ":" ++ text ++ more)

/-- `json.Marshal(params)` for a `map[string]interface{}`: a nil map is
written as `null`, a map as an object with its keys sorted. -/
def Marshal (floatText : Float64 → String) (params : Params) : Except GoError String :=
  match params with
  | none => .ok "null"
  | some kvs =>
    match encodeEntries floatText (sortEntries kvs) true with
    | .error err => .error err
    | .ok text => .ok ("\x7b" ++ text ++ "\x7d")

end json

/-! ## net/url: the parts of a URL that `http.NewRequest` reads from its text

After net/url of Go 1.22.  What is read out of the authority (user and
host) is the world's (`World.parseAuthority`); everything else is embedded.
A path and a fragment are byte strings: a `%XX` may stand for any byte. -/

namespace url

/-- `*url.Userinfo`. -/
structure Userinfo where
  username : String
  password : String
  passwordSet : Bool
deriving DecidableEq, Repr

/-- `url.URL`. -/
structure URL where
  Scheme : String
  Opaque : String
  User : Option Userinfo
  Host : String
  Path : List UInt8
  RawPath : String
  OmitHost : Bool
  ForceQuery : Bool
  RawQuery : String
  Fragment : List UInt8
  RawFragment : String
deriving DecidableEq, Repr

/-- The zero value `URL{}` that `new(URL)` points to. -/
def URL.zero : URL := ⟨"", "", none, "", [], "", false, false, "", [], ""⟩

/-- The two of the modes of `shouldEscape` that parsing a URL uses outside
the authority. -/
inductive encoding where
  | encodePath | encodeFragment
deriving DecidableEq, Repr

/-- Whether a byte is one of the characters of `s`. -/
def oneOf (c : UInt8) (s : String) : Bool := s.toList.any (fun d => d.toNat == c.toNat)

/-- `shouldEscape(c, mode)` for the path and the fragment. -/
def shouldEscape (c : UInt8) (mode : encoding) : Bool :=
  if ('a'.toNat ≤ c.toNat ∧ c.toNat ≤ 'z'.toNat) ∨ ('A'.toNat ≤ c.toNat ∧ c.toNat ≤ 'Z'.toNat)
      ∨ ('0'.toNat ≤ c.toNat ∧ c.toNat ≤ '9'.toNat) then false
  else if oneOf c "-_.~" then false
  else if oneOf c "$&+,/:;=?@" then
    match mode with
    | .encodePath => c.toNat == '?'.toNat
    | .encodeFragment => false
  else if mode = .encodeFragment ∧ oneOf c "!()*" then false
  else true

/-- `ishex(c)`. -/
def ishex (c : UInt8) : Bool :=
  ('0'.toNat ≤ c.toNat ∧ c.toNat ≤ '9'.toNat) ∨ ('a'.toNat ≤ c.toNat ∧ c.toNat ≤ 'f'.toNat)
    ∨ ('A'.toNat ≤ c.toNat ∧ c.toNat ≤ 'F'.toNat)

/-- `unhex(c)`. -/
def unhex (c : UInt8) : Nat :=
  if '0'.toNat ≤ c.toNat ∧ c.toNat ≤ '9'.toNat then c.toNat - '0'.toNat
  else if 'a'.toNat ≤ c.toNat ∧ c.toNat ≤ 'f'.toNat then c.toNat - 'a'.toNat + 10
  else if 'A'.toNat ≤ c.toNat ∧ c.toNat ≤ 'F'.toNat then c.toNat - 'A'.toNat + 10
  else 0

/-- `unescape(s, mode)` for the path and the fragment: every `%` must be
followed by two hexadecimal digits and stands for that byte; the error is the
`EscapeError`, the `%` and up to two bytes after it. -/
def unescape : List UInt8 → Except (List UInt8) (List UInt8)
  | [] => .ok []
  | c :: cs =>
    if c.toNat = '%'.toNat then
      match cs with
      | h1 :: h2 :: rest =>
        if ishex h1 && ishex h2 then
          match unescape rest with
          | .ok t => .ok (UInt8.ofNat (unhex h1 * 16 + unhex h2) :: t)
          | .error e => .error e
        else .error [c, h1, h2]
      | rest => .error (c :: rest)
    else
      match unescape cs with
      | .ok t => .ok (c :: t)
      | .error e => .error e

/-- The constant `upperhex`. -/
def upperhex : List Char := "0123456789ABCDEF".toList

/-- `escape(s, mode)`: a byte that `shouldEscape` names becomes `%XX`. -/
def escape (s : List UInt8) (mode : encoding) : List Char :=
  s.flatMap (fun c =>
    if shouldEscape c mode then
      ['%', upperhex.getD (c.toNat / 16) '0', upperhex.getD (c.toNat % 16) '0']
    else [Char.ofNat c.toNat])

/-- `validEncoded(s, mode)`. -/
def validEncoded (s : List UInt8) (mode : encoding) : Bool :=
  s.all (fun c =>
    oneOf c "!$&()*+,;=:@" || c.toNat == 39 || oneOf c "[]" || oneOf c "%"
      || !shouldEscape c mode)

/-- `(*URL).EscapedPath()`. -/
def URL.EscapedPath (u : URL) : String :=
  let escaped : String :=
    if u.Path = utf8.bytes "*".toList then "*" else String.mk (escape u.Path .encodePath)
  if u.RawPath ≠ "" ∧ validEncoded (utf8.bytes u.RawPath.toList) .encodePath then
    match unescape (utf8.bytes u.RawPath.toList) with
    | .ok p => if p = u.Path then u.RawPath else escaped
    | .error _ => escaped
  else escaped

/-- `(*URL).RequestURI()`: the request target that goes over the wire. -/
def URL.RequestURI (u : URL) : String :=
  let result : String :=
    if u.Opaque = "" then
      if u.EscapedPath = "" then "/" else u.EscapedPath
    else if "//".toList.isPrefixOf u.Opaque.toList then u.Scheme ++ ":" ++ u.Opaque
    else u.Opaque
  if u.ForceQuery ∨ u.RawQuery ≠ "" then result ++ "?" ++ u.RawQuery else result

/-- `strings.Cut(s, sep)` for a separator of one character. -/
def Cut : List Char → Char → List Char × List Char × Bool
  | [], _ => ([], [], false)
  | c :: cs, sep =>
    if c = sep then ([], cs, true)
    else ((c :: (Cut cs sep).1), (Cut cs sep).2.1, (Cut cs sep).2.2)

/-- The loop of `getScheme(rawURL)`: `seen` is the text read, reversed. -/
def getSchemeLoop (rawURL : List Char) :
    List Char → List Char → Except String (List Char × List Char)
  | _, [] => .ok ([], rawURL)
  | seen, c :: cs =>
    if c.isAlpha then getSchemeLoop rawURL (c :: seen) cs
    else if c.isDigit ∨ c = '+' ∨ c = '-' ∨ c = '.' then
      if seen = [] then .ok ([], rawURL) else getSchemeLoop rawURL (c :: seen) cs
    else if c = ':' then
      if seen = [] then .error "missing protocol scheme" else .ok (seen.reverse, cs)
    else .ok ([], rawURL)

/-- `getScheme(rawURL)`: the scheme and the text after its colon. -/
def getScheme (rawURL : List Char) : Except String (List Char × List Char) :=
  getSchemeLoop rawURL [] rawURL

/-- `stringContainsCTLByte(s)`. -/
def stringContainsCTLByte (s : List Char) : Bool :=
  s.any (fun c => c.toNat < 32 || c.toNat == 0x7f)

/-- `(*URL).setPath(p)`: the path and, when the text is not the default
escaping of the path, the text as a hint. -/
def URL.setPath (u : URL) (p : List Char) : Except (List UInt8) URL :=
  match unescape (utf8.bytes p) with
  | .error e => .error e
  | .ok path =>
    .ok { u with Path := path,
                 RawPath := if p = escape path .encodePath then "" else String.mk p }

/-- `(*URL).setFragment(f)`. -/
def URL.setFragment (u : URL) (f : List Char) : Except (List UInt8) URL :=
  match unescape (utf8.bytes f) with
  | .error e => .error e
  | .ok frag =>
    .ok { u with Fragment := frag,
                 RawFragment := if f = escape frag .encodeFragment then "" else String.mk f }

/-- A character that stands for itself in a URL path: an ASCII character
that `escape` leaves alone (a letter, a digit, or one of `-_.~$&+,/:;=@`). -/
def plain (c : Char) : Bool :=
  c.toNat < 128 && !shouldEscape (UInt8.ofNat c.toNat) .encodePath

/-- `removeEmptyPort(host)` of net/http: a host that ends in a colon loses
it. -/
def removeEmptyPort (host : String) : String :=
  match host.toList.reverse with
  | ':' :: rest => String.mk rest.reverse
  | _ => host

end url

/-! ## net/textproto and net/http: requests, headers, responses -/

namespace textproto

/-- `validHeaderFieldByte(c)`: the token characters of RFC 7230 (letters,
digits and the fifteen marks, of which the apostrophe and the grave accent are
given by their codes 39 and 96). -/
def validHeaderFieldByte (c : Char) : Bool :=
  c.isAlphanum || "!#$%&*+-.^_|~".toList.contains c || c.toNat == 39 || c.toNat == 96

/-- The loop of `canonicalMIMEHeaderKey`: an upper-case letter first and after
every dash, lower-case letters elsewhere. -/
def canonical : List Char → Bool → List Char
  | [], _ => []
  | c :: cs, upper =>
    let c1 := if upper && c.isLower then c.toUpper
      else if !upper && c.isUpper then c.toLower
      else c
    c1 :: canonical cs (c1 == '-')

/-- `textproto.CanonicalMIMEHeaderKey(s)`: a key with a character that is no
token character is returned unchanged. -/
def CanonicalMIMEHeaderKey (s : String) : String :=
  if s.toList.all validHeaderFieldByte then String.mk (canonical s.toList true) else s

end textproto

namespace http

/-- `http.Header`, a `map[string][]string`, as its entries. -/
abbrev Header := List (String × List String)

/-- `Header.Set(key, value)`: the entry under the canonical key becomes the
single value `value`. -/
def Header.Set (h : Header) (key value : String) : Header :=
  (textproto.CanonicalMIMEHeaderKey key, [value]) ::
    h.filter (fun e => e.1 != textproto.CanonicalMIMEHeaderKey key)

/-- `Header.Get(key)`: the first value under the canonical key, or `""`. -/
def Header.Get (h : Header) (key : String) : String :=
  match h.lookup (textproto.CanonicalMIMEHeaderKey key) with
  | some (v :: _) => v
  | _ => ""

/-- The fields of `*http.Request` that `CallMake` sets: the method, the URL
that `http.NewRequest` parsed, the header and the body bytes. -/
structure Request where
  Method : String
  URL : url.URL
  Header : Header
  Body : String
deriving DecidableEq, Repr

/-- A response body as a reader: the bytes it yields and the error that ends
the stream (`none` for a clean end of file). -/
structure Body where
  data : String
  err : Option GoError
deriving DecidableEq, Repr

/-- The fields of `*http.Response` a caller of `CallMake` can look at. -/
structure Response where
  StatusCode : Nat
  Body : Body
deriving DecidableEq, Repr

end http

namespace ioutil

/-- `ioutil.ReadAll(r)` on a response body. -/
def ReadAll (r : http.Body) : Except GoError String :=
  match r.err with
  | some err => .error err
  | none => .ok r.data

end ioutil

namespace bufio

/-- `*bufio.Reader`: the reader it wraps, nothing consumed yet. -/
structure Reader where
  rd : http.Body
deriving DecidableEq, Repr

/-- `bufio.NewReader(rd)`. -/
def NewReader (rd : http.Body) : Reader := ⟨rd⟩

end bufio

/-! ## crypto/x509 and crypto/tls -/

namespace x509

/-- A parsed certificate, as its DER bytes. -/
abbrev Certificate := List UInt8

/-- `*x509.CertPool`, as the certificates it holds. -/
abbrev CertPool := List Certificate

/-- `x509.NewCertPool()`: the empty pool. -/
def NewCertPool : CertPool := []

end x509

namespace tls

/-- `tls.Config`, of which `CallMake` sets `RootCAs`; `none` is the nil pool. -/
structure Config where
  RootCAs : Option x509.CertPool
deriving DecidableEq, Repr

end tls

namespace http

/-- `http.Transport`, of which `CallMake` sets `TLSClientConfig`. -/
structure Transport where
  TLSClientConfig : tls.Config
deriving DecidableEq, Repr

/-- `http.Client`, of which `CallMake` sets `Transport`. -/
structure Client where
  Transport : Transport
deriving DecidableEq, Repr

end http

/-! ## The world outside the process -/

/-- A server as a client connection sees it. -/
structure Server where
  /-- The certificate it presents; `none` when the URL scheme is plain `http`. -/
  Certificate : Option x509.Certificate
  /-- What comes back for a request once the connection stands. -/
  RoundTrip : http.Request → Except GoError http.Response

/-- Everything `lnd.go` reaches through its libraries and does not own. -/
structure World where
  /-- `ioutil.ReadFile(path)`. -/
  ReadFile : String → Except GoError (List UInt8)
  /-- `strconv.ParseFloat(s, 64)`, the value part (gjson drops the error). -/
  ParseFloat : String → Float64
  /-- `strconv.FormatFloat(f, 'f', -1, 64)`. -/
  FormatFloat : Float64 → String
  /-- The text the float encoder of encoding/json writes for a finite value. -/
  AppendFloat : Float64 → String
  /-- `strconv.Quote(s)` of a Go string, given by its bytes. -/
  Quote : List UInt8 → String
  /-- `parseAuthority(authority)` of net/url: the user and the host read out
  of the text between `//` and the path, or the error. -/
  parseAuthority : String → Except GoError (Option url.Userinfo × String)
  /-- The certificates `AppendCertsFromPEM` finds in PEM data. -/
  ParsePEM : List UInt8 → List x509.Certificate
  /-- The root set of the platform. -/
  SystemRoots : x509.CertPool
  /-- Whether X.509 verification accepts a server certificate under one root:
  a chain leads from the first to the second (and names and dates fit). -/
  ChainsTo : x509.Certificate → x509.Certificate → Bool
  /-- The `*url.Error` of a handshake that found no chain to a root
  (`x509: certificate signed by unknown authority`). -/
  UnknownAuthority : http.Request → GoError
  /-- Name resolution and connection to the server that a scheme and a host
  (the host with its port) name. -/
  Dial : String → String → Except GoError Server

namespace x509

/-- `(*CertPool).AppendCertsFromPEM(pemCerts)`: the pool afterwards, and
whether a certificate was found. -/
def CertPool.AppendCertsFromPEM (w : World) (s : CertPool) (pemCerts : List UInt8) :
    CertPool × Bool :=
  (s ++ w.ParsePEM pemCerts, !(w.ParsePEM pemCerts).isEmpty)

end x509

namespace url

/-- The text of an `EscapeError`. -/
def EscapeError (w : World) (e : List UInt8) : GoError :=
  ⟨"invalid URL escape " ++ w.Quote e⟩

/-- The end of `parse`: `setPath` on what is left of the text. -/
def parsePath (w : World) (u : URL) (rest : List Char) : Except GoError URL :=
  match u.setPath rest with
  | .error e => .error (EscapeError w e)
  | .ok u1 => .ok u1

/-- `parse(rawURL, false)`: the URL without its fragment. -/
def parse (w : World) (rawURL : List Char) : Except GoError URL :=
  if stringContainsCTLByte rawURL then
    .error ⟨"net/url: invalid control character in URL"⟩
  else if rawURL = ['*'] then .ok { URL.zero with Path := utf8.bytes ['*'] }
  else
    match getScheme rawURL with
    | .error e => .error ⟨e⟩
    | .ok (scheme, afterScheme) =>
      -- the query: a lone `?` at the end forces an empty query
      let force : Bool := afterScheme.getLast? = some '?' ∧ afterScheme.count '?' = 1
      let rest : List Char := if force then afterScheme.dropLast else (Cut afterScheme '?').1
      let u : URL := { URL.zero with
        Scheme := String.mk (scheme.map Char.toLower),
        ForceQuery := force,
        RawQuery := if force then "" else String.mk (Cut afterScheme '?').2.1 }
      if !("/".toList.isPrefixOf rest) ∧ scheme ≠ [] then
        -- a rootless path after a scheme is opaque
        .ok { u with Opaque := String.mk rest }
      else if !("/".toList.isPrefixOf rest) ∧ (Cut rest '/').1.contains ':' then
        .error ⟨"first path segment in URL cannot contain colon"⟩
      else if (scheme ≠ [] ∨ !("///".toList.isPrefixOf rest)) ∧ "//".toList.isPrefixOf rest then
        match w.parseAuthority (String.mk ((rest.drop 2).takeWhile (fun c => c != '/'))) with
        | .error err => .error err
        | .ok (user, host) =>
          parsePath w { u with User := user, Host := host }
            ((rest.drop 2).dropWhile (fun c => c != '/'))
      else
        parsePath w { u with OmitHost := (scheme ≠ [] ∧ "/".toList.isPrefixOf rest) } rest

/-- `url.Parse(rawURL)`: the text up to the first `#` is parsed, the text
after it is the fragment; an error is wrapped in a `*url.Error`. -/
def Parse (w : World) (rawURL : String) : Except GoError URL :=
  match parse w (Cut rawURL.toList '#').1 with
  | .error err =>
    .error ⟨"parse " ++ w.Quote (utf8.bytes (Cut rawURL.toList '#').1) ++ ": " ++ err.msg⟩
  | .ok u =>
    if (Cut rawURL.toList '#').2.1 = [] then .ok u
    else
      match u.setFragment (Cut rawURL.toList '#').2.1 with
      | .error e =>
        .error ⟨"parse " ++ w.Quote (utf8.bytes rawURL.toList) ++ ": " ++ (EscapeError w e).msg⟩
      | .ok u1 => .ok u1

end url

namespace http

/-- `validMethod(method)`: not empty, and made of token characters. -/
def validMethod (method : String) : Bool :=
  method.length > 0 && method.toList.all textproto.validHeaderFieldByte

/-- `http.NewRequest(method, url, body)` with a `*bytes.Buffer` body: an
empty method means GET, the URL text is parsed and an empty port dropped from its
host, the header starts empty. -/
def NewRequest (w : World) (method rawURL : String) (body : String) :
    Except GoError Request :=
  if !validMethod (if method = "" then "GET" else method) then
    .error ⟨"net/http: invalid method " ++ w.Quote (utf8.bytes method.toList)⟩
  else
    match url.Parse w rawURL with
    | .error err => .error err
    | .ok u =>
      .ok { Method := if method = "" then "GET" else method,
            URL := { u with Host := url.removeEmptyPort u.Host },
            Header := [], Body := body }

/-- `(*Client).Do(req)`: connect, verify the server certificate against
`RootCAs` (against the roots of the platform when `RootCAs` is nil, as
crypto/tls documents), then exchange request and response.  The server
is the one the scheme and the host of the URL name; the request target it
reads is `req.URL.RequestURI()`. -/
def Client.Do (w : World) (c : Client) (req : Request) : Except GoError Response :=
  match w.Dial req.URL.Scheme req.URL.Host with
  | .error err => .error err
  | .ok srv =>
    match srv.Certificate with
    | none => srv.RoundTrip req
    | some leaf =>
      let roots := match c.Transport.TLSClientConfig.RootCAs with
        | none => w.SystemRoots
        | some pool => pool
      if roots.any (w.ChainsTo leaf) then srv.RoundTrip req
      else .error (w.UnknownAuthority req)

end http

/-! ## github.com/tidwall/gjson: `ParseBytes`, `Result.String`, `Result.Get`

The three calls `CallJSON` makes, after gjson v1.17.  `Get` is embedded for a
path that is one plain key (no `.`, `|`, `*`, `?`, `#`, backslash, and no
leading `@`, `!`, `[` or brace), which `"error"` and `"message"` are.  The
fields `Index` and `Indexes` of a result, positions that nothing here reads,
are left out. -/

namespace gjson

/-- `gjson.Type`. -/
inductive Type_ where
  | Null | False | Number | String | True | JSON
deriving DecidableEq, Repr

/-- `gjson.Result`. -/
structure Result where
  Type_ : Type_
  Raw : String
  Str : String
  Num : Float64
deriving DecidableEq, Repr

/-- The zero value `gjson.Result{}`. -/
def Result.zero : Result := ⟨.Null, "", "", ⟨0⟩⟩

/-- The scan for the quote that closes a string, from the character after
the opening quote: the content, whether a backslash was seen, and the text
after the closing quote (`none` when the string never closes).  A quote
closes the string when the run of backslashes right before it is even;
`odd` is the parity of that run and `acc` the content read, reversed. -/
def closeQuote : List Char → Bool → Bool → List Char → List Char × Bool × Option (List Char)
  | [], esc, _, acc => (acc.reverse, esc, none)
  | c :: cs, esc, odd, acc =>
    if c = '"' then
      if odd then closeQuote cs esc false (c :: acc)
      else (acc.reverse, esc, some cs)
    else if c = '\\' then closeQuote cs true (!odd) (c :: acc)
    else closeQuote cs esc false (c :: acc)

/-- The value of one hexadecimal digit. -/
def hexVal (c : Char) : Option Nat :=
  if c.isDigit then some (c.toNat - '0'.toNat)
  else if 'a' ≤ c ∧ c ≤ 'f' then some (c.toNat - 'a'.toNat + 10)
  else if 'A' ≤ c ∧ c ≤ 'F' then some (c.toNat - 'A'.toNat + 10)
  else none

/-- `runeit(json)`: `strconv.ParseUint(json[:4], 16, 64)`, zero unless the
first four bytes are four hexadecimal digits. -/
def runeit (json : List Char) : Nat :=
  match (json.take 4).mapM hexVal with
  | some ds => if ds.length = 4 then ds.foldl (fun n d => n * 16 + d) 0 else 0
  | none => 0

/-- `utf16.IsSurrogate(r)`. -/
def IsSurrogate (r : Nat) : Bool := 0xd800 ≤ r && r < 0xe000

/-- `utf16.DecodeRune(r1, r2)`. -/
def DecodeRune (r1 r2 : Nat) : Nat :=
  if 0xd800 ≤ r1 ∧ r1 < 0xdc00 ∧ 0xdc00 ≤ r2 ∧ r2 < 0xe000 then
    (r1 - 0xd800) * 1024 + (r2 - 0xdc00) + 0x10000
  else 0xfffd

/-- The character `utf8.EncodeRune` writes for `r`: U+FFFD for a surrogate. -/
def EncodeRune (r : Nat) : Char :=
  if IsSurrogate r then Char.ofNat 0xfffd else Char.ofNat r

/-- The text after the next `n` bytes, and how many bytes of a character
that the cut goes through are left before it. -/
def skipBytes : List Char → Nat → Nat × List Char
  | [], _ => (0, [])
  | c :: cs, n =>
    if n = 0 then (0, c :: cs)
    else if utf8.RuneLen c ≤ n then skipBytes cs (n - utf8.RuneLen c)
    else (utf8.RuneLen c - n, cs)

/-- Bytes that are no UTF-8 text, each shown as U+FFFD. -/
def stray (n : Nat) : List Char := List.replicate n (Char.ofNat 0xfffd)

/-- `unescape(json)`; `fuel` bounds the steps, the length of the text is
enough.  gjson counts the four places after `\u` in bytes: when a character
of more than one byte stands there, the number read is zero and the bytes of
that character past the fourth place are copied as they are (`stray`). -/
def unescape : Nat → List Char → List Char
  | 0, _ => []
  | _, [] => []
  | fuel + 1, c :: cs =>
    if c.toNat < 32 then []
    else if c = '\\' then
      match cs with
      | [] => []
      | e :: rest =>
        if e = '\\' then '\\' :: unescape fuel rest
        else if e = '/' then '/' :: unescape fuel rest
        else if e = 'b' then Char.ofNat 8 :: unescape fuel rest
        else if e = 'f' then Char.ofNat 12 :: unescape fuel rest
        else if e = 'n' then '\n' :: unescape fuel rest
        else if e = 'r' then '\r' :: unescape fuel rest
        else if e = 't' then '\t' :: unescape fuel rest
        else if e = '"' then '"' :: unescape fuel rest
        else if e = 'u' then
          if utf8.len rest < 4 then []
          else
            let r := runeit rest
            let s1 := skipBytes rest 4
            if IsSurrogate r then
              match s1.2 with
              | '\\' :: 'u' :: more =>
                if 4 ≤ utf8.len more then
                  let s2 := skipBytes more 4
                  EncodeRune (DecodeRune r (runeit more)) ::
                    (stray s2.1 ++ unescape fuel s2.2)
                else EncodeRune r :: unescape fuel s1.2
              | _ => EncodeRune r :: unescape fuel s1.2
            else EncodeRune r :: (stray s1.1 ++ unescape fuel s1.2)
        else []
    else c :: unescape fuel cs

/-- The text of a string value: its content, unescaped when a backslash was
seen. -/
def strOf (content : List Char) (esc : Bool) : String :=
  String.mk (if esc then unescape content.length content else content)

/-- Whether a character ends the text of a number: white space or a control
character, a comma, a closing bracket or brace. -/
def endsNumber (c : Char) : Bool :=
  c.toNat ≤ 32 || c = ',' || c = ']' || c = '\x7d'

/-- The raw text `tonum` and `parseNumber` cut: the first character and what
follows up to the end of the number. -/
def numberText : List Char → List Char
  | [] => []
  | c :: cs => c :: cs.takeWhile (fun d => !endsNumber d)

/-- The raw text `tolit` and `parseLiteral` cut: the first character and the
lower-case letters that follow. -/
def literalText : List Char → List Char
  | [] => []
  | c :: cs => c :: cs.takeWhile (fun d => 'a' ≤ d ∧ d ≤ 'z')

/-- Whether a character starts a number. -/
def startsNumber (c : Char) : Bool :=
  c = '+' || c = '-' || c.isDigit || c = 'i' || c = 'I' || c = 'N'

/-- `tostr(json)` for a text that starts with a quote: `Raw` and `Str`. -/
def tostr (json : List Char) : String × String :=
  let r := closeQuote (json.drop 1) false false []
  match r.2.2 with
  | some _ => (String.mk ('"' :: r.1 ++ ['"']), strOf r.1 r.2.1)
  | none => (String.mk json, strOf r.1 r.2.1)

/-- The loop of `gjson.Parse(json)`. -/
def parseAt (w : World) : List Char → Result
  | [] => Result.zero
  | c :: cs =>
    if c = '\x7b' ∨ c = '[' then ⟨.JSON, String.mk (c :: cs), "", ⟨0⟩⟩
    else if c.toNat ≤ 32 then parseAt w cs
    else if startsNumber c then
      ⟨.Number, String.mk (numberText (c :: cs)), "",
        w.ParseFloat (String.mk (numberText (c :: cs)))⟩
    else if c = 'n' then
      match cs with
      | d :: _ =>
        if d ≠ 'u' then
          ⟨.Number, String.mk (numberText (c :: cs)), "",
            w.ParseFloat (String.mk (numberText (c :: cs)))⟩
        else ⟨.Null, String.mk (literalText (c :: cs)), "", ⟨0⟩⟩
      | [] => ⟨.Null, String.mk (literalText (c :: cs)), "", ⟨0⟩⟩
    else if c = 't' then ⟨.True, String.mk (literalText (c :: cs)), "", ⟨0⟩⟩
    else if c = 'f' then ⟨.False, String.mk (literalText (c :: cs)), "", ⟨0⟩⟩
    else if c = '"' then ⟨.String, (tostr (c :: cs)).1, (tostr (c :: cs)).2, ⟨0⟩⟩
    else Result.zero

/-- `gjson.ParseBytes(json)`, which is `gjson.Parse(string(json))`. -/
def ParseBytes (w : World) (json : String) : Result := parseAt w json.toList

/-- The loop of `parseSquash` after the opening bracket: the text up to and
with the bracket that closes it (or up to the end), and the text left.
`depth` counts the open brackets, `inStr` says whether the scan is inside a
string and `odd` is the parity of the backslashes right before; `acc` is the
text read, reversed. -/
def squash : List Char → Nat → Bool → Bool → List Char → List Char × List Char
  | [], _, _, _, acc => (acc.reverse, [])
  | c :: cs, depth, true, odd, acc =>
    if c = '"' then squash cs depth odd false (c :: acc)
    else if c = '\\' then squash cs depth true (!odd) (c :: acc)
    else squash cs depth true false (c :: acc)
  | c :: cs, depth, false, _, acc =>
    if c = '"' then squash cs depth true false (c :: acc)
    else if c = '\x7b' ∨ c = '[' ∨ c = '(' then squash cs (depth + 1) false false (c :: acc)
    else if c = '\x7d' ∨ c = ']' ∨ c = ')' then
      if depth = 1 then ((c :: acc).reverse, cs)
      else squash cs (depth - 1) false false (c :: acc)
    else squash cs depth false false (c :: acc)

/-- `parseSquash(json, i)` at an opening bracket: the value text and the
text left. -/
def parseSquash : List Char → List Char × List Char
  | [] => ([], [])
  | c :: cs => squash cs 1 false false [c]

/-- The scan of `parseObject` for the next key: the text after the quote
that opens it, `none` at a closing brace or at the end. -/
def nextKey : List Char → Option (List Char)
  | [] => none
  | c :: cs => if c = '"' then some cs else if c = '\x7d' then none else nextKey cs

/-- Whether a character starts a value in the value scan of `parseObject`. -/
def startsValue (c : Char) : Bool :=
  c = '"' || c = '\x7b' || c = '[' || c = 'n' || c = 't' || c = 'f' || startsNumber c

/-- The loop of `parseObject(c, i, path)` for a path that is the plain key
`part`: the value under the first key equal to `part`, the zero result when
there is none.  `fuel` bounds the keys visited; the length of the text is
enough. -/
def parseObject (w : World) (part : String) : Nat → List Char → Result
  | 0, _ => Result.zero
  | fuel + 1, json =>
    match nextKey json with
    | none => Result.zero
    | some afterQuote =>
      let k := closeQuote afterQuote false false []
      match k.2.2 with
      | none => Result.zero
      | some afterKey =>
        let hit : Bool := part = strOf k.1 k.2.1
        match afterKey.dropWhile (fun c => !startsValue c) with
        | [] => Result.zero
        | c :: cs =>
          if c = '"' then
            let v := closeQuote cs false false []
            match v.2.2 with
            | none => Result.zero
            | some rest =>
              if hit then ⟨.String, String.mk ('"' :: v.1 ++ ['"']), strOf v.1 v.2.1, ⟨0⟩⟩
              else parseObject w part fuel rest
          else if c = '\x7b' ∨ c = '[' then
            if hit then ⟨.JSON, String.mk (parseSquash (c :: cs)).1, "", ⟨0⟩⟩
            else parseObject w part fuel (parseSquash (c :: cs)).2
          else if c = 't' ∨ c = 'f' ∨ (c = 'n' ∧ (cs.head? = none ∨ cs.head? = some 'u')) then
            if hit then
              ⟨if c = 't' then .True else if c = 'f' then .False else .Null,
                String.mk (literalText (c :: cs)), "", ⟨0⟩⟩
            else parseObject w part fuel (cs.dropWhile (fun d => 'a' ≤ d ∧ d ≤ 'z'))
          else
            if hit then
              ⟨.Number, String.mk (numberText (c :: cs)), "",
                w.ParseFloat (String.mk (numberText (c :: cs)))⟩
            else parseObject w part fuel (cs.dropWhile (fun d => !endsNumber d))

/-- `gjson.Get(json, path)` for a path that is one plain key: the scan for
the first brace or bracket, then `parseObject`; `parseArray` finds nothing
under a key that is no index. -/
def getAt (w : World) (path : String) : List Char → Result
  | [] => Result.zero
  | c :: cs =>
    if c = '\x7b' then parseObject w path cs.length cs
    else if c = '[' then Result.zero
    else getAt w path cs

/-- `gjson.Get(json, path)`. -/
def Get (w : World) (json : String) (path : String) : Result := getAt w path json.toList

/-- `Result.Get(path)`: `Get(t.Raw, path)`. -/
def Result.Get (w : World) (t : Result) (path : String) : Result :=
  gjson.Get w t.Raw path

/-- `Result.String()`. -/
def Result.String (w : World) (t : Result) : String :=
  match t.Type_ with
  | .Null => ""
  | .False => "false"
  | .Number =>
    if t.Raw.length = 0 then w.FormatFloat t.Num
    else
      let digits := match t.Raw.toList with
        | '-' :: ds => ds
        | ds => ds
      if digits.all Char.isDigit then t.Raw else w.FormatFloat t.Num
  | .String => t.Str
  | .JSON => t.Raw
  | .True => "true"

end gjson

/-! ## lnd.go -/

namespace lnd

/-- `type Config struct`. -/
structure Config where
  Host : String
  TlsCertData : List UInt8
  MacaroonData : String
deriving DecidableEq, Repr

/-- `type Lnd struct { *Config }`; the embedded pointer is the one `Connect`
stores, never nil. -/
structure Lnd where
  Config : Config
deriving DecidableEq, Repr

/-- `CallMake`, lines 53 to 61: the value of `req` once the header is set.
An error of `json.Marshal` or of `http.NewRequest` is returned at once. -/
def Lnd.CallMake.req (w : World) (l : Lnd) (method path : String) (params : Params) :
    Except GoError http.Request :=
  match json.Marshal w.AppendFloat params with
  | .error err => .error err
  | .ok data =>
    match http.NewRequest w method (l.Config.Host ++ "/" ++ path) data with
    | .error err => .error err
    | .ok req =>
      .ok { req with Header := req.Header.Set "Grpc-Metadata-macaroon" l.Config.MacaroonData }

/-- `CallMake`, lines 63 to 72: the value of `client`, whose root pool is a
new pool to which the certificates of `TlsCertData` were appended. -/
def Lnd.CallMake.client (w : World) (l : Lnd) : http.Client :=
  let tls_cert := x509.NewCertPool
  let tls_cert := (tls_cert.AppendCertsFromPEM w l.Config.TlsCertData).1
  { Transport := { TLSClientConfig := { RootCAs := some tls_cert } } }

/-- `func (l Lnd) CallMake(method, path, params)`. -/
def Lnd.CallMake (w : World) (l : Lnd) (method path : String) (params : Params) :
    Except GoError http.Response :=
  match Lnd.CallMake.req w l method path params with
  | .error err => .error err
  | .ok req =>
    match (Lnd.CallMake.client w l).Do w req with
    | .error err => .error err
    | .ok res => .ok res

/-- `func (l Lnd) CallJSON(method, path, params)`. -/
def Lnd.CallJSON (w : World) (l : Lnd) (method path : String) (params : Params) :
    gjson.Result × Option GoError :=
  match l.CallMake w method path params with
  | .error err => (gjson.Result.zero, some err)
  | .ok res =>
    match ioutil.ReadAll res.Body with
    | .error err => (gjson.Result.zero, some err)
    | .ok body =>
      let rjson := gjson.ParseBytes w body
      if rjson.String w = "0" then
        (gjson.Result.zero, some (fmt.Errorf body))
      else if (rjson.Get w "error").String w ≠ "" then
        (gjson.Result.zero, some (fmt.Errorf (((rjson.Get w "error").Get w "message").String w)))
      else (rjson, none)

/-- `func (l Lnd) CallStream(method, path, params)`. -/
def Lnd.CallStream (w : World) (l : Lnd) (method path : String) (params : Params) :
    Except GoError bufio.Reader :=
  match l.CallMake w method path params with
  | .error err => .error err
  | .ok res => .ok (bufio.NewReader res.Body)

/-- `func (l Lnd) CreateInvoice(value int, memo string)`. -/
def Lnd.CreateInvoice (w : World) (l : Lnd) (value : Int) (memo : String) :
    gjson.Result × Option GoError :=
  let data : Params := some [("value", .int value), ("memo", .string memo)]
  l.CallJSON w "POST" "v1/invoices" data

/-- `func (l Lnd) ListInvoices()`. -/
def Lnd.ListInvoices (w : World) (l : Lnd) : gjson.Result × Option GoError :=
  l.CallJSON w "GET" "v1/invoices" none

/-- `func (l Lnd) BalanceChannel()`. -/
def Lnd.BalanceChannel (w : World) (l : Lnd) : gjson.Result × Option GoError :=
  l.CallJSON w "GET" "v1/balance/channels" none

/-- `func (l Lnd) DecodeInvoice(invoice string)`. -/
def Lnd.DecodeInvoice (w : World) (l : Lnd) (invoice : String) : gjson.Result × Option GoError :=
  l.CallJSON w "GET" ("v1/payreq/" ++ invoice) none

/-- `func (l Lnd) InvoicesSubscribe()`. -/
def Lnd.InvoicesSubscribe (w : World) (l : Lnd) : Except GoError bufio.Reader :=
  l.CallStream w "GET" "v1/invoices/subscribe" none

/-- `func (l Lnd) GetInfo()`. -/
def Lnd.GetInfo (w : World) (l : Lnd) : gjson.Result × Option GoError :=
  l.CallJSON w "GET" "v1/getinfo" none

/-- `func Connect(host, tls_cert_path, macaroon_path string) *Lnd`. -/
def Connect (w : World) (host tls_cert_path macaroon_path : String) : Outcome Lnd :=
  match w.ReadFile tls_cert_path with
  | .error err => .fatal err
  | .ok tls_cert =>
    match w.ReadFile macaroon_path with
    | .error err => .fatal err
    | .ok macaroon =>
      let lnd : Lnd := {
        Config := {
          Host := host,
          TlsCertData := tls_cert,
          MacaroonData := hex.EncodeToString macaroon } }
      match (lnd.GetInfo w).2 with
      | some err => .fatal err
      | none => .returned lnd

end lnd

/-! ## A world for examples

A node at `https://localhost:8080` that presents the pinned certificate, and
the credential files of a client on the same machine. -/

namespace demo

/-- The content of the file `tls.cert`. -/
def cert : List UInt8 := [0x30, 0x82, 0x01, 0x0a]

/-- The content of the file `admin.macaroon`. -/
def macaroon : List UInt8 := [0x02, 0x01, 0x03, 0x6c, 0x6e, 0x64, 0xff]

/-- The address of the node. -/
def host : String := "https://localhost:8080"

/-- The URL of the node with a path of plain characters. -/
def target (path : String) : url.URL :=
  { url.URL.zero with
    Scheme := "https", Host := "localhost:8080", Path := utf8.bytes path.toList }

/-- What the node answers to a request target. -/
def reply (req : http.Request) : http.Response :=
  if req.URL.RequestURI = "/v1/getinfo" then
    ⟨200, ⟨"\x7b\"alias\":\"alice\"\x7d", none⟩⟩
  else if req.URL.RequestURI = "/v1/invoices" then
    if req.Method = "POST" then ⟨200, ⟨"\x7b\"value\":100,\"memo\":\"coffee\"\x7d", none⟩⟩
    else ⟨200, ⟨"", none⟩⟩
  else if req.URL.RequestURI = "/v1/balance/channels" then
    ⟨502, ⟨"<html><body>502 Bad Gateway</body></html>", none⟩⟩
  else if req.URL.RequestURI = "/v1/payreq/lnbc1" then
    ⟨500, ⟨"0", none⟩⟩
  else if req.URL.RequestURI = "/v1/transactions" then
    ⟨404, ⟨"404 page not found\n", none⟩⟩
  else if req.URL.RequestURI = "/v2/router/send" then
    ⟨500, ⟨"\x7b\"error\":\x7b\"message\":\"fee is 5% of amount\"\x7d\x7d", none⟩⟩
  else
    ⟨500, ⟨"\x7b\"error\":\x7b\"message\":\"insufficient balance\"\x7d\x7d", none⟩⟩

/-- The node. -/
def server : Server := { Certificate := some cert, RoundTrip := fun req => .ok (reply req) }

/-- A world with the two credential files and the node; of the float texts
it knows those the examples meet, it quotes plain ASCII text, and the
authorities it meets are a host with a port. -/
def world : World where
  ReadFile := fun path =>
    if path = "tls.cert" then .ok cert
    else if path = "admin.macaroon" then .ok macaroon
    else .error ⟨"open " ++ path ++ ": no such file or directory"⟩
  ParseFloat := fun s =>
    if s = "100" then ⟨0x4059000000000000⟩
    else if s = "404" then ⟨0x4079400000000000⟩
    else ⟨0⟩
  FormatFloat := fun f =>
    if f.bits = 0x4059000000000000 then "100"
    else if f.bits = 0x4079400000000000 then "404"
    else "0"
  AppendFloat := fun f => if f = Float64.ten then "10" else "0"
  Quote := fun b => "\"" ++ String.mk (b.map (fun c => Char.ofNat c.toNat)) ++ "\""
  parseAuthority := fun authority => .ok (none, authority)
  ParsePEM := fun pem => if pem = cert then [cert] else []
  SystemRoots := []
  ChainsTo := fun leaf root => leaf == root
  UnknownAuthority := fun req =>
    ⟨"Get \"" ++ req.URL.Scheme ++ "://" ++ req.URL.Host ++ req.URL.RequestURI ++
      "\": x509: certificate signed by unknown authority"⟩
  Dial := fun scheme addr =>
    if scheme = "https" ∧ addr = "localhost:8080" then .ok server
    else .error ⟨"dial tcp: connection refused"⟩

/-- The certificate of another server, one the platform trusts. -/
def otherCert : List UInt8 := [0x30, 0x82, 0x02, 0x0b]

/-- The world in which the address leads to that other server, whose
certificate chains to a root of the platform and not to the pinned one. -/
def intercepted : World :=
  { world with
    SystemRoots := [otherCert]
    Dial := fun _ _ => .ok { Certificate := some otherCert, RoundTrip := fun req => .ok (reply req) } }

/-- The client `Connect` builds in this world. -/
def client : lnd.Lnd :=
  { Config := { Host := host, TlsCertData := cert, MacaroonData := hex.EncodeToString macaroon } }

end demo

/-! ## Library facts -/

namespace hex

theorem encodeByte_length (v : UInt8) : (encodeByte v).length = 2 := rfl

theorem Encode_length (src : List UInt8) : (Encode src).length = 2 * src.length := by
  induction src with
  | nil => rfl
  | cons v src ih => simp [Encode, encodeByte_length, ih]; omega

theorem getD_mem_hextable (n : Nat) (h : n < 16) : hextable.getD n '0' ∈ hextable := by
  interval_cases n <;> decide

theorem Encode_mem (src : List UInt8) : ∀ c ∈ Encode src, c ∈ hextable := by
  induction src with
  | nil => intro c hc; simp [Encode] at hc
  | cons v src ih =>
    intro c hc
    have hv : v.toNat < 256 := v.val.isLt
    simp only [Encode, encodeByte, List.mem_append, List.mem_cons, List.mem_singleton,
      List.cons_append, List.nil_append] at hc
    rcases hc with rfl | rfl | hc
    · exact getD_mem_hextable _ (by omega)
    · exact getD_mem_hextable _ (by omega)
    · exact ih c hc

theorem Encode_getElem? (src : List UInt8) (i : Nat) (v : UInt8) (h : src[i]? = some v) :
    (Encode src)[2 * i]? = some (hextable.getD (v.toNat / 16) '0')
    ∧ (Encode src)[2 * i + 1]? = some (hextable.getD (v.toNat % 16) '0') := by
  induction src generalizing i with
  | nil => simp at h
  | cons x src ih =>
    cases i with
    | zero =>
      simp only [List.getElem?_cons_zero, Option.some.injEq] at h
      subst h
      simp [Encode, encodeByte]
    | succ i =>
      simp only [List.getElem?_cons_succ] at h
      have e1 : 2 * (i + 1) = (2 * i) + 1 + 1 := by omega
      have e2 : 2 * (i + 1) + 1 = (2 * i + 1) + 1 + 1 := by omega
      rw [e2, e1]
      simpa [Encode, encodeByte] using ih i h

end hex

namespace fmt

theorem doPrintf_of_no_percent (format : List Char) (fuel : Nat)
    (hp : '%' ∉ format) (hf : format.length ≤ fuel) : doPrintf fuel format = format := by
  induction format generalizing fuel with
  | nil => cases fuel <;> rfl
  | cons c cs ih =>
    cases fuel with
    | zero => simp at hf
    | succ fuel =>
      have hc : c ≠ '%' := fun h => hp (by simp [h])
      have hcs : '%' ∉ cs := fun h => hp (by simp [h])
      simp only [List.length_cons, Nat.add_le_add_iff_right] at hf
      simp [doPrintf, hc, ih fuel hcs hf]

/-- A format without `%` is the text of the error. -/
theorem Errorf_of_no_percent (format : String) (hp : '%' ∉ format.toList) :
    Errorf format = ⟨format⟩ := by
  have h := doPrintf_of_no_percent format.toList format.length hp (le_refl _)
  unfold Errorf Sprintf
  rw [h]
  rfl

end fmt

namespace url

theorem plain_code : ∀ n, n < 128 →
    shouldEscape (UInt8.ofNat n) .encodePath = false →
    32 ≤ n ∧ n ≠ 127 ∧ n ≠ 35 ∧ n ≠ 37 ∧ n ≠ 63 := by
  decide

theorem plain_spec (c : Char) (h : plain c = true) :
    c.toNat < 128 ∧ shouldEscape (UInt8.ofNat c.toNat) .encodePath = false
    ∧ 32 ≤ c.toNat ∧ c.toNat ≠ 127 ∧ c.toNat ≠ 37 ∧ c ≠ '#' ∧ c ≠ '?'
    ∧ (UInt8.ofNat c.toNat).toNat = c.toNat := by
  simp only [plain, Bool.and_eq_true, decide_eq_true_eq, Bool.not_eq_true'] at h
  have k := plain_code c.toNat h.1 h.2
  refine ⟨h.1, h.2, k.1, k.2.1, k.2.2.2.1, ?_, ?_, ?_⟩
  · rintro rfl; exact k.2.2.1 rfl
  · rintro rfl; exact k.2.2.2.2 rfl
  · exact UInt8.toNat_ofNat_of_lt (by have := h.1; simp only [UInt8.size]; omega)

theorem Cut_of_not_mem (s : List Char) (sep : Char) (h : sep ∉ s) :
    Cut s sep = (s, [], false) := by
  induction s with
  | nil => rfl
  | cons c cs ih =>
    have hc : c ≠ sep := fun e => h (by simp [e])
    have hcs : sep ∉ cs := fun e => h (by simp [e])
    simp [Cut, hc, ih hcs]

theorem getSchemeLoop_letters (rawURL scheme rest seen : List Char)
    (hs : ∀ c ∈ scheme, c.isAlpha = true) (hne : seen ≠ [] ∨ scheme ≠ []) :
    getSchemeLoop rawURL seen (scheme ++ ':' :: rest) = .ok (seen.reverse ++ scheme, rest) := by
  induction scheme generalizing seen with
  | nil =>
    have hseen : seen ≠ [] := by
      rcases hne with h | h
      · exact h
      · exact absurd rfl h
    simp [getSchemeLoop, hseen, Char.isAlpha, Char.isUpper, Char.isLower, Char.isDigit]
  | cons c cs ih =>
    have hc : c.isAlpha = true := hs c (by simp)
    have hcs : ∀ d ∈ cs, d.isAlpha = true := fun d hd => hs d (by simp [hd])
    show getSchemeLoop rawURL seen (c :: (cs ++ ':' :: rest)) = _
    rw [getSchemeLoop]
    simp only [hc, if_true]
    rw [ih (c :: seen) hcs (Or.inl (by simp))]
    simp

theorem takeWhile_slash (a b : List Char) (h : '/' ∉ a) :
    (a ++ '/' :: b).takeWhile (fun c => c != '/') = a
    ∧ (a ++ '/' :: b).dropWhile (fun c => c != '/') = '/' :: b := by
  induction a with
  | nil => simp
  | cons c cs ih =>
    have hc : c ≠ '/' := fun e => h (by simp [e])
    have hcs : '/' ∉ cs := fun e => h (by simp [e])
    simp [List.takeWhile_cons, List.dropWhile_cons, hc, ih hcs]

theorem bytes_plain (p : List Char) (h : ∀ c ∈ p, plain c = true) :
    utf8.bytes p = p.map (fun c => UInt8.ofNat c.toNat) := by
  induction p with
  | nil => rfl
  | cons c cs ih =>
    have hc := plain_spec c (h c (by simp))
    have hcs : ∀ d ∈ cs, plain d = true := fun d hd => h d (by simp [hd])
    have := ih hcs
    simp only [utf8.bytes] at this
    simp [utf8.bytes, utf8.AppendRune, hc.1, this]

theorem unescape_cons_of_ne (c : UInt8) (cs : List UInt8) (h : c.toNat ≠ 37) :
    unescape (c :: cs) =
      (match unescape cs with
        | .ok t => .ok (c :: t)
        | .error e => .error e) := by
  rcases cs with _ | ⟨h1, _ | ⟨h2, rest⟩⟩ <;> simp [unescape, h]

theorem unescape_plain (p : List Char) (h : ∀ c ∈ p, plain c = true) :
    unescape (p.map (fun c => UInt8.ofNat c.toNat)) =
      .ok (p.map (fun c => UInt8.ofNat c.toNat)) := by
  induction p with
  | nil => rfl
  | cons c cs ih =>
    have hc := plain_spec c (h c (by simp))
    have hcs : ∀ d ∈ cs, plain d = true := fun d hd => h d (by simp [hd])
    have hp : c.toNat ≠ 37 := hc.2.2.2.2.1
    rw [List.map_cons, unescape_cons_of_ne _ _ (by rw [hc.2.2.2.2.2.2.2]; exact hp), ih hcs]

theorem escape_plain (p : List Char) (h : ∀ c ∈ p, plain c = true) :
    escape (p.map (fun c => UInt8.ofNat c.toNat)) .encodePath = p := by
  induction p with
  | nil => rfl
  | cons c cs ih =>
    have hc := plain_spec c (h c (by simp))
    have hcs : ∀ d ∈ cs, plain d = true := fun d hd => h d (by simp [hd])
    have := ih hcs
    simp only [escape] at this
    simp only [escape, List.map_cons, List.flatMap_cons, hc.2.1, hc.2.2.2.2.2.2.2,
      Bool.false_eq_true, if_false, Char.ofNat_toNat, this, List.singleton_append]


theorem isAlpha_code (c : Char) (h : c.isAlpha = true) :
    (65 ≤ c.toNat ∧ c.toNat ≤ 90) ∨ (97 ≤ c.toNat ∧ c.toNat ≤ 122) := by
  simp only [Char.isAlpha, Char.isUpper, Char.isLower, Bool.or_eq_true, Bool.and_eq_true,
    decide_eq_true_eq, ge_iff_le, UInt32.le_def, Fin.le_def] at h
  exact h


theorem ne_of_code (c d : Char) (h : c.toNat ≠ d.toNat) : c ≠ d := fun e => h (by rw [e])

theorem parse_plain (w : World) (scheme authority path : List Char)
    (hs : scheme ≠ []) (hsa : ∀ c ∈ scheme, c.isAlpha = true)
    (ha : ∀ c ∈ authority, c ≠ '/' ∧ c ≠ '?' ∧ c ≠ '#' ∧ 32 ≤ c.toNat ∧ c.toNat ≠ 127)
    (hp : ∀ c ∈ path, plain c = true) :
    parse w (scheme ++ "://".toList ++ authority ++ '/' :: path) =
      (match w.parseAuthority (String.mk authority) with
        | .error err => .error err
        | .ok (user, host) =>
          .ok { URL.zero with
            Scheme := String.mk (scheme.map Char.toLower), User := user, Host := host,
            Path := utf8.bytes ('/' :: path) }) := by
  have hslash : plain '/' = true := by decide
  have hp1 : ∀ c ∈ '/' :: path, plain c = true := by
    intro c hc
    rcases List.mem_cons.1 hc with rfl | hc
    · exact hslash
    · exact hp c hc
  -- facts about the characters of the text
  have hrest : ∀ c ∈ "//".toList ++ authority ++ '/' :: path,
      c ≠ '?' ∧ c ≠ '#' ∧ 32 ≤ c.toNat ∧ c.toNat ≠ 127 := by
    intro c hc
    simp only [List.mem_append, List.mem_cons] at hc
    rcases hc with (hc | hc) | hc | hc
    · have : c = '/' := by
        simp only [String.toList] at hc
        rcases List.mem_cons.1 hc with h | h
        · exact h
        · simpa using h
      subst this
      decide
    · exact ⟨(ha c hc).2.1, (ha c hc).2.2.1, (ha c hc).2.2.2.1, (ha c hc).2.2.2.2⟩
    · subst hc; decide
    · have k := plain_spec c (hp c hc)
      exact ⟨k.2.2.2.2.2.2.1, k.2.2.2.2.2.1, k.2.2.1, k.2.2.2.1⟩
  have hall : ∀ c ∈ scheme ++ ':' :: ("//".toList ++ authority ++ '/' :: path),
      c ≠ '#' ∧ 32 ≤ c.toNat ∧ c.toNat ≠ 127 := by
    intro c hc
    rcases List.mem_append.1 hc with hc | hc
    · have k := isAlpha_code c (hsa c hc)
      refine ⟨ne_of_code _ _ ?_, ?_, ?_⟩
      · have : '#'.toNat = 35 := rfl
        omega
      · omega
      · omega
    · rcases List.mem_cons.1 hc with rfl | hc
      · decide
      · exact ⟨(hrest c hc).2.1, (hrest c hc).2.2⟩
  have htext : scheme ++ "://".toList ++ authority ++ '/' :: path =
      scheme ++ ':' :: ("//".toList ++ authority ++ '/' :: path) := by
    simp [String.toList]
  rw [htext]
  have hctl : stringContainsCTLByte
      (scheme ++ ':' :: ("//".toList ++ authority ++ '/' :: path)) = false := by
    simp only [stringContainsCTLByte, List.any_eq_false]
    intro c hc
    have k := hall c hc
    simp only [Bool.or_eq_true, decide_eq_true_eq, beq_iff_eq, not_or, not_lt]
    exact ⟨k.2.1, k.2.2⟩
  have hstar : scheme ++ ':' :: ("//".toList ++ authority ++ '/' :: path) ≠ ['*'] := by
    intro e
    have := congrArg List.length e
    simp [String.toList] at this
    omega
  have hsch : getScheme (scheme ++ ':' :: ("//".toList ++ authority ++ '/' :: path)) =
      .ok (scheme, "//".toList ++ authority ++ '/' :: path) := by
    unfold getScheme
    rw [getSchemeLoop_letters _ scheme _ [] hsa (Or.inr hs)]
    simp
  have hq : '?' ∉ "//".toList ++ authority ++ '/' :: path := fun h => (hrest _ h).1 rfl
  have hcut := Cut_of_not_mem _ '?' hq
  have hcount : ("//".toList ++ authority ++ '/' :: path).count '?' = 0 :=
    List.count_eq_zero_of_not_mem hq
  have hauth : '/' ∉ authority := fun h => (ha _ h).1 rfl
  have htw := takeWhile_slash authority path hauth
  have hr : "//".toList ++ authority ++ '/' :: path = '/' :: '/' :: (authority ++ '/' :: path) := by
    simp [String.toList]
  have hset : ∀ u : URL, u.setPath ('/' :: path) =
      .ok { u with Path := utf8.bytes ('/' :: path), RawPath := "" } := by
    intro u
    unfold URL.setPath
    rw [bytes_plain _ hp1, unescape_plain _ hp1]
    simp only [escape_plain _ hp1, if_true]
  unfold parse
  simp only [hctl, hstar, hsch, hcount, hcut]
  rw [hr]
  have hforce : ∀ l : List Char, decide (l.getLast? = some '?' ∧ 0 = 1) = false := by
    intro l; simp
  simp only [hforce, Bool.false_eq_true, if_false]
  simp only [List.isPrefixOf, String.toList, List.drop, htw.1, htw.2, hs, parsePath,
    beq_self_eq_true, Bool.and_self, Bool.not_true, false_and, ne_eq, not_false_eq_true,
    true_or, and_self, if_true, if_false, Bool.true_and, true_and]
  cases hpa : w.parseAuthority (String.mk authority) with
  | error err => rfl
  | ok r =>
    obtain ⟨user, host⟩ := r
    simp only [Bool.false_eq_true, false_and, if_false, hset]
    rfl


theorem Parse_plain (w : World) (scheme authority path : List Char)
    (hs : scheme ≠ []) (hsa : ∀ c ∈ scheme, c.isAlpha = true)
    (ha : ∀ c ∈ authority, c ≠ '/' ∧ c ≠ '?' ∧ c ≠ '#' ∧ 32 ≤ c.toNat ∧ c.toNat ≠ 127)
    (hp : ∀ c ∈ path, plain c = true) (u : URL)
    (h : Parse w (String.mk (scheme ++ "://".toList ++ authority ++ '/' :: path)) = .ok u) :
    ∃ user host, w.parseAuthority (String.mk authority) = .ok (user, host)
      ∧ u = { URL.zero with
          Scheme := String.mk (scheme.map Char.toLower), User := user, Host := host,
          Path := utf8.bytes ('/' :: path) } := by
  have hhash : '#' ∉ scheme ++ "://".toList ++ authority ++ '/' :: path := by
    intro hc
    simp only [List.mem_append, List.mem_cons, String.toList] at hc
    rcases hc with ((hc | hc) | hc) | hc | hc
    · have k := isAlpha_code _ (hsa _ hc)
      have : '#'.toNat = 35 := rfl
      omega
    · revert hc; decide
    · exact (ha _ hc).2.2.1 rfl
    · revert hc; decide
    · exact (plain_spec _ (hp _ hc)).2.2.2.2.2.1 rfl
  have hcut := Cut_of_not_mem _ _ hhash
  have hparse := parse_plain w scheme authority path hs hsa ha hp
  unfold Parse at h
  rw [show (String.mk (scheme ++ "://".toList ++ authority ++ '/' :: path)).toList =
    scheme ++ "://".toList ++ authority ++ '/' :: path from rfl, hcut] at h
  simp only [hparse] at h
  cases hpa : w.parseAuthority (String.mk authority) with
  | error err => simp [hpa] at h
  | ok r =>
    obtain ⟨user, host⟩ := r
    simp only [hpa, if_true] at h
    injection h with h
    exact ⟨user, host, rfl, h.symm⟩

theorem RequestURI_plain (scheme : String) (user : Option Userinfo) (host : String)
    (path : List Char) (hp : ∀ c ∈ path, plain c = true) :
    URL.RequestURI { URL.zero with
        Scheme := scheme, User := user, Host := host, Path := utf8.bytes ('/' :: path) } =
      String.mk ('/' :: path) := by
  have hp1 : ∀ c ∈ '/' :: path, plain c = true := by
    intro c hc
    rcases List.mem_cons.1 hc with rfl | hc
    · decide
    · exact hp c hc
  have hne : utf8.bytes ('/' :: path) ≠ utf8.bytes "*".toList := by
    rw [bytes_plain _ hp1]
    intro e
    have := congrArg List.head? e
    simp only [List.map_cons, List.head?_cons, String.toList, utf8.bytes, List.flatMap_cons,
      utf8.AppendRune] at this
    revert this
    decide
  have hesc : URL.EscapedPath { URL.zero with
        Scheme := scheme, User := user, Host := host, Path := utf8.bytes ('/' :: path) } =
      String.mk ('/' :: path) := by
    unfold URL.EscapedPath
    simp only [hne, if_false]
    rw [bytes_plain _ hp1, escape_plain _ hp1]
    simp [URL.zero]
  have hne2 : String.mk ('/' :: path) ≠ "" := by
    intro e
    have := congrArg String.length e
    simp at this
  unfold URL.RequestURI
  rw [hesc]
  simp [URL.zero, hne2]

end url

namespace http

/-- What a request that `http.NewRequest` returns holds. -/
theorem NewRequest_ok (w : World) (method rawURL body : String) (req : Request)
    (h : NewRequest w method rawURL body = .ok req) :
    req.Method = (if method = "" then "GET" else method)
    ∧ req.Header = [] ∧ req.Body = body
    ∧ ∃ u, url.Parse w rawURL = .ok u
        ∧ req.URL = { u with Host := url.removeEmptyPort u.Host } := by
  unfold NewRequest at h
  by_cases hv : validMethod (if method = "" then "GET" else method) = true
  · simp only [hv, Bool.not_true, Bool.false_eq_true, if_false] at h
    cases hp : url.Parse w rawURL with
    | error err => simp [hp] at h
    | ok u =>
      simp only [hp] at h
      injection h with h
      subst h
      exact ⟨rfl, rfl, rfl, u, rfl, rfl⟩
  · simp [hv] at h

theorem Header.Get_Set (h : Header) (key value : String) :
    (h.Set key value).Get key = value := by
  simp [Header.Get, Header.Set, List.lookup]

end http

namespace lnd

/-- What a returning `Connect` went through: both files were read, the
client holds the host, the certificate bytes and the hex text of the
macaroon bytes, and `GetInfo` on that client returned a nil error. -/
theorem Connect_returned (w : World) (host tls_cert_path macaroon_path : String) (lnd : Lnd)
    (h : Connect w host tls_cert_path macaroon_path = .returned lnd) :
    ∃ tls_cert macaroon, w.ReadFile tls_cert_path = .ok tls_cert
      ∧ w.ReadFile macaroon_path = .ok macaroon
      ∧ lnd = ⟨⟨host, tls_cert, hex.EncodeToString macaroon⟩⟩
      ∧ (lnd.GetInfo w).2 = none := by
  unfold Connect at h
  cases hc : w.ReadFile tls_cert_path with
  | error err => simp [hc] at h
  | ok tls_cert =>
    cases hm : w.ReadFile macaroon_path with
    | error err => simp [hc, hm] at h
    | ok macaroon =>
      simp only [hc, hm] at h
      cases hg : (Lnd.GetInfo w ⟨⟨host, tls_cert, hex.EncodeToString macaroon⟩⟩).2 with
      | some err => simp [hg] at h
      | none =>
        simp only [hg] at h
        injection h with h
        subst h
        exact ⟨tls_cert, macaroon, rfl, rfl, rfl, hg⟩

/-- A request that `CallMake` builds carries the macaroon text of the client
in the header, and its URL is what net/url parses from the host, a slash and
the path (with an empty port dropped from the host). -/
theorem CallMake_req_fields (w : World) (l : Lnd) (method path : String) (params : Params)
    (req : http.Request) (h : Lnd.CallMake.req w l method path params = .ok req) :
    req.Header.Get "Grpc-Metadata-macaroon" = l.Config.MacaroonData
    ∧ ∃ u, url.Parse w (l.Config.Host ++ "/" ++ path) = .ok u
        ∧ req.URL = { u with Host := url.removeEmptyPort u.Host } := by
  unfold Lnd.CallMake.req at h
  cases hm : json.Marshal w.AppendFloat params with
  | error err => simp [hm] at h
  | ok data =>
    simp only [hm] at h
    cases hn : http.NewRequest w method (l.Config.Host ++ "/" ++ path) data with
    | error err => simp [hn] at h
    | ok req0 =>
      simp only [hn] at h
      injection h with h
      subst h
      exact ⟨http.Header.Get_Set _ _ _, (http.NewRequest_ok w _ _ _ req0 hn).2.2.2⟩

/-- Once the request is built, `CallMake` is `Do` of its client on it. -/
theorem CallMake_eq_Do (w : World) (l : Lnd) (method path : String) (params : Params)
    (req : http.Request) (h : Lnd.CallMake.req w l method path params = .ok req) :
    l.CallMake w method path params = (Lnd.CallMake.client w l).Do w req := by
  unfold Lnd.CallMake
  rw [h]
  simp only []
  cases http.Client.Do w (Lnd.CallMake.client w l) req <;> rfl

/-! ## The claims -/

/-- C1. Whatever the HTTP status code, when the response body is exactly the
text `0`, `CallJSON` returns the zero `gjson.Result` and a non-nil error
whose message is the raw body text `0`. -/
theorem CallJSON_sentinel_zero (w : World) (l : Lnd) (method path : String) (params : Params)
    (status : Nat)
    (hres : l.CallMake w method path params = .ok ⟨status, ⟨"0", none⟩⟩) :
    l.CallJSON w method path params = (gjson.Result.zero, some ⟨"0"⟩) := by
  unfold Lnd.CallJSON
  rw [hres]
  rfl

/-- C1 at the example node: the answer to `GET v1/payreq/lnbc1` has status 500
and the body `0`. -/
theorem CallJSON_sentinel_zero_witness :
    demo.client.CallMake demo.world "GET" "v1/payreq/lnbc1" none = .ok ⟨500, ⟨"0", none⟩⟩ ∧
    demo.client.CallJSON demo.world "GET" "v1/payreq/lnbc1" none =
      (gjson.Result.zero, some ⟨"0"⟩) :=
  ⟨by decide,
    CallJSON_sentinel_zero demo.world demo.client "GET" "v1/payreq/lnbc1" none 500 (by decide)⟩

/-- C2. For a response body that is not the sentinel and has a non-empty
`error` field, `CallJSON` returns the zero result and the error that
`fmt.Errorf` makes of the text of `error.message` used as the format.  A
message without `%` is carried unchanged, so the body with the message
`insufficient balance` gives an error with exactly that message; for the
body with the message `fee is 5% of amount` the field is read correctly and
the error carries `fee is 5%!o(MISSING)f amount`. -/
theorem CallJSON_error_message_is_format (w : World) (l : Lnd) (method path : String)
    (params : Params) (status : Nat) (body : String)
    (hres : l.CallMake w method path params = .ok ⟨status, ⟨body, none⟩⟩) :
    ((gjson.ParseBytes w body).String w ≠ "0" →
      ((gjson.ParseBytes w body).Get w "error").String w ≠ "" →
      l.CallJSON w method path params =
        (gjson.Result.zero,
          some (fmt.Errorf ((((gjson.ParseBytes w body).Get w "error").Get w "message").String w))))
    ∧ (∀ message : String, '%' ∉ message.toList → fmt.Errorf message = ⟨message⟩)
    ∧ (body = "\x7b\"error\":\x7b\"message\":\"insufficient balance\"\x7d\x7d" →
      l.CallJSON w method path params = (gjson.Result.zero, some ⟨"insufficient balance"⟩))
    ∧ (body = "\x7b\"error\":\x7b\"message\":\"fee is 5% of amount\"\x7d\x7d" →
      (((gjson.ParseBytes w body).Get w "error").Get w "message").String w =
        "fee is 5% of amount"
      ∧ l.CallJSON w method path params =
        (gjson.Result.zero, some ⟨"fee is 5%!o(MISSING)f amount"⟩)) := by
  refine ⟨?_, fmt.Errorf_of_no_percent, ?_, ?_⟩
  · intro h0 herr
    unfold Lnd.CallJSON
    rw [hres]
    simp [ioutil.ReadAll, h0, herr]
  · intro hb
    subst hb
    unfold Lnd.CallJSON
    rw [hres]
    rfl
  · intro hb
    subst hb
    refine ⟨rfl, ?_⟩
    unfold Lnd.CallJSON
    rw [hres]
    rfl

/-- C2 at the example node: the answer to `POST v2/router/send` carries the
message `fee is 5% of amount`. -/
theorem CallJSON_error_message_is_format_witness :
    demo.client.CallMake demo.world "POST" "v2/router/send" none =
      .ok ⟨500, ⟨"\x7b\"error\":\x7b\"message\":\"fee is 5% of amount\"\x7d\x7d", none⟩⟩
    ∧ demo.client.CallJSON demo.world "POST" "v2/router/send" none =
      (gjson.Result.zero, some ⟨"fee is 5%!o(MISSING)f amount"⟩) :=
  ⟨by decide,
    ((CallJSON_error_message_is_format demo.world demo.client "POST" "v2/router/send" none 500
      _ (by decide)).2.2.2 rfl).2⟩

/-- C3. For a response body whose parsed value does not stringify to `0` and
whose `error` field is empty or absent, `CallJSON` returns a nil error and
the parsed value of the body; for the body
`\x7b"value":100,"memo":"coffee"\x7d` the field `value` of the returned value is
the number `100` and its field `memo` is the string `coffee`. -/
theorem CallJSON_success (w : World) (l : Lnd) (method path : String)
    (params : Params) (status : Nat) (body : String)
    (hres : l.CallMake w method path params = .ok ⟨status, ⟨body, none⟩⟩) :
    ((gjson.ParseBytes w body).String w ≠ "0" →
      ((gjson.ParseBytes w body).Get w "error").String w = "" →
      l.CallJSON w method path params = (gjson.ParseBytes w body, none))
    ∧ (body = "\x7b\"value\":100,\"memo\":\"coffee\"\x7d" →
      l.CallJSON w method path params = (gjson.ParseBytes w body, none)
      ∧ (l.CallJSON w method path params).1.Get w "value" =
          ⟨.Number, "100", "", w.ParseFloat "100"⟩
      ∧ ((l.CallJSON w method path params).1.Get w "value").String w = "100"
      ∧ (l.CallJSON w method path params).1.Get w "memo" =
          ⟨.String, "\"coffee\"", "coffee", ⟨0⟩⟩
      ∧ ((l.CallJSON w method path params).1.Get w "memo").String w = "coffee") := by
  have hgen : (gjson.ParseBytes w body).String w ≠ "0" →
      ((gjson.ParseBytes w body).Get w "error").String w = "" →
      l.CallJSON w method path params = (gjson.ParseBytes w body, none) := by
    intro h0 herr
    unfold Lnd.CallJSON
    rw [hres]
    simp [ioutil.ReadAll, h0, herr]
  refine ⟨hgen, ?_⟩
  intro hb
  subst hb
  have hraw : (gjson.ParseBytes w "\x7b\"value\":100,\"memo\":\"coffee\"\x7d").String w =
      "\x7b\"value\":100,\"memo\":\"coffee\"\x7d" := rfl
  have hcall := hgen (by rw [hraw]; decide) rfl
  rw [hcall]
  exact ⟨rfl, rfl, rfl, rfl, rfl⟩

/-- C3 at the example node: `CreateInvoice(100, "coffee")` returns the parsed
body and a nil error. -/
theorem CallJSON_success_witness :
    demo.client.CallMake demo.world "POST" "v1/invoices"
        (some [("value", .int 100), ("memo", .string "coffee")]) =
      .ok ⟨200, ⟨"\x7b\"value\":100,\"memo\":\"coffee\"\x7d", none⟩⟩
    ∧ demo.client.CreateInvoice demo.world 100 "coffee" =
      (gjson.ParseBytes demo.world "\x7b\"value\":100,\"memo\":\"coffee\"\x7d", none) :=
  ⟨by decide,
    ((CallJSON_success demo.world demo.client "POST" "v1/invoices"
      (some [("value", .int 100), ("memo", .string "coffee")]) 200 _ (by decide)).2 rfl).1⟩

/-- C5, as stated, fails: for nil params the request `CallMake` builds has
the four bytes `null` as its body, not an empty one. -/
theorem CallMake_nil_params_body_null :
    Lnd.CallMake.req demo.world demo.client "GET" "v1/getinfo" none =
      .ok {
        Method := "GET",
        URL := demo.target "/v1/getinfo",
        Header := [("Grpc-Metadata-Macaroon", ["0201036c6e64ff"])],
        Body := "null" }
    ∧ ("null" : String) ≠ "" := by
  decide

/-- C5, amended. `CallMake` always serializes params and attaches the text as
the request body: for nil params the body is the text `null` (whatever the
method and the path, hence for GetInfo, ListInvoices, BalanceChannel,
DecodeInvoice and InvoicesSubscribe), and for non-nil params every request
built has a JSON object text, from an opening to a closing brace, as its
body. -/
theorem CallMake_body (w : World) (l : Lnd) (method path : String) :
    Lnd.CallMake.req w l method path none =
      (match http.NewRequest w method (l.Config.Host ++ "/" ++ path) "null" with
        | .error err => .error err
        | .ok req => .ok {
            Method := if method = "" then "GET" else method,
            URL := req.URL,
            Header := [("Grpc-Metadata-Macaroon", [l.Config.MacaroonData])],
            Body := "null" })
    ∧ (∀ req : http.Request,
        Lnd.CallMake.req w l method path none = .ok req → req.Body = "null")
    ∧ (∀ (kvs : List (String × Value)) (req : http.Request),
        Lnd.CallMake.req w l method path (some kvs) = .ok req →
        ∃ members : String, req.Body = "\x7b" ++ members ++ "\x7d") := by
  have hnil : Lnd.CallMake.req w l method path none =
      (match http.NewRequest w method (l.Config.Host ++ "/" ++ path) "null" with
        | .error err => .error err
        | .ok req => .ok {
            Method := if method = "" then "GET" else method,
            URL := req.URL,
            Header := [("Grpc-Metadata-Macaroon", [l.Config.MacaroonData])],
            Body := "null" }) := by
    unfold Lnd.CallMake.req
    simp only [json.Marshal]
    cases hn : http.NewRequest w method (l.Config.Host ++ "/" ++ path) "null" with
    | error err => rfl
    | ok req0 =>
      obtain ⟨h1, h2, h3, -⟩ := http.NewRequest_ok w _ _ _ req0 hn
      simp only []
      congr 1
      cases req0
      simp only at h1 h2 h3
      subst h1 h2 h3
      rfl
  refine ⟨hnil, ?_, ?_⟩
  · intro req h
    rw [hnil] at h
    cases hn : http.NewRequest w method (l.Config.Host ++ "/" ++ path) "null" with
    | error err => simp [hn] at h
    | ok req0 =>
      simp only [hn] at h
      injection h with h
      subst h
      rfl
  · intro kvs req h
    unfold Lnd.CallMake.req json.Marshal at h
    cases hm : json.encodeEntries w.AppendFloat (json.sortEntries kvs) true with
    | error err => simp [hm] at h
    | ok text =>
      simp only [hm] at h
      cases hn : http.NewRequest w method (l.Config.Host ++ "/" ++ path)
          ("\x7b" ++ text ++ "\x7d") with
      | error err => simp [hn] at h
      | ok req0 =>
        simp only [hn] at h
        injection h with h
        subst h
        exact ⟨text, (http.NewRequest_ok w _ _ _ req0 hn).2.2.1⟩

/-- C5, amended, at the example node: the body of the request of
`CreateInvoice(100, "coffee")` is an object text. -/
theorem CallMake_body_witness :
    Lnd.CallMake.req demo.world demo.client "POST" "v1/invoices"
        (some [("value", .int 100), ("memo", .string "coffee")]) =
      .ok {
        Method := "POST",
        URL := demo.target "/v1/invoices",
        Header := [("Grpc-Metadata-Macaroon", ["0201036c6e64ff"])],
        Body := "\x7b\"memo\":\"coffee\",\"value\":100\x7d" }
    ∧ ∃ members : String,
        ("\x7b\"memo\":\"coffee\",\"value\":100\x7d" : String) = "\x7b" ++ members ++ "\x7d" :=
  have h : Lnd.CallMake.req demo.world demo.client "POST" "v1/invoices"
        (some [("value", .int 100), ("memo", .string "coffee")]) =
      .ok {
        Method := "POST",
        URL := demo.target "/v1/invoices",
        Header := [("Grpc-Metadata-Macaroon", ["0201036c6e64ff"])],
        Body := "\x7b\"memo\":\"coffee\",\"value\":100\x7d" } := by decide
  ⟨h, (CallMake_body demo.world demo.client "POST" "v1/invoices").2.2 _ _ h⟩

/-- C6. Each domain operation is the transport call with the method, path
and params of its row: its result and its failure are those of that call.
`DecodeInvoice` appends the invoice to `v1/payreq/` as it is. -/
theorem domain_operations_delegate (w : World) (l : Lnd) :
    l.GetInfo w = l.CallJSON w "GET" "v1/getinfo" none
    ∧ (∀ (value : Int) (memo : String), l.CreateInvoice w value memo =
        l.CallJSON w "POST" "v1/invoices" (some [("value", .int value), ("memo", .string memo)]))
    ∧ l.ListInvoices w = l.CallJSON w "GET" "v1/invoices" none
    ∧ l.BalanceChannel w = l.CallJSON w "GET" "v1/balance/channels" none
    ∧ (∀ invoice : String, l.DecodeInvoice w invoice =
        l.CallJSON w "GET" ("v1/payreq/" ++ invoice) none)
    ∧ l.InvoicesSubscribe w = l.CallStream w "GET" "v1/invoices/subscribe" none :=
  ⟨rfl, fun _ _ => rfl, rfl, rfl, fun _ => rfl, rfl⟩

/-- C7, as stated, fails for a path that is not URL-safe: for the path
`v1/payreq/ln bc?x#frag` the request of a client that `Connect` returned goes
to the node with the request target `/v1/payreq/ln%20bc?x`: the space is
escaped, the text after `?` is the query, and the text after `#` is a
fragment, which is not part of the target. -/
theorem CallMake_path_not_sent_as_written :
    Connect demo.world demo.host "tls.cert" "admin.macaroon" = .returned demo.client
    ∧ (Lnd.CallMake.req demo.world demo.client "GET" "v1/payreq/ln bc?x#frag" none).map
        (fun req => (req.URL.Scheme, req.URL.Host, req.URL.RequestURI, req.URL.RawQuery,
          req.URL.Fragment)) =
      .ok ("https", "localhost:8080", "/v1/payreq/ln%20bc?x", "x", utf8.bytes "frag".toList)
    ∧ ("/v1/payreq/ln%20bc?x" : String) ≠ "/" ++ "v1/payreq/ln bc?x#frag" := by
  decide

/-- C7, amended. For a client that `Connect` returned after reading the
macaroon bytes `b`, every request `CallMake` builds carries under
`Grpc-Metadata-macaroon` the hex text of `b`: of length twice that of `b`,
made of the digits `0123456789abcdef`, two per byte (high half first).  Its
URL is what net/url parses from the text of the host, a slash and the path,
and `CallMake` sends it.  When the host is a scheme of letters, `://` and an
authority, and the path is made of plain characters (ASCII letters, digits
and `-_.~$&+,/:;=@`), the request goes to that scheme and authority with the
request target a slash and the path, without query or fragment: to the URL
that the host, a slash and the path spell. -/
theorem Connect_requests_carry_macaroon (w : World) (host tls_cert_path macaroon_path : String)
    (lnd : Lnd) (b : List UInt8)
    (hconn : Connect w host tls_cert_path macaroon_path = .returned lnd)
    (hmac : w.ReadFile macaroon_path = .ok b)
    (method path : String) (params : Params) (req : http.Request)
    (hreq : Lnd.CallMake.req w lnd method path params = .ok req) :
    req.Header.Get "Grpc-Metadata-macaroon" = hex.EncodeToString b
    ∧ (hex.EncodeToString b).length = 2 * b.length
    ∧ (∀ c ∈ (hex.EncodeToString b).toList, c ∈ "0123456789abcdef".toList)
    ∧ (∀ (i : Nat) (v : UInt8), b[i]? = some v →
        (hex.EncodeToString b).toList[2 * i]? = "0123456789abcdef".toList[v.toNat / 16]?
        ∧ (hex.EncodeToString b).toList[2 * i + 1]? = "0123456789abcdef".toList[v.toNat % 16]?)
    ∧ (∃ u, url.Parse w (host ++ "/" ++ path) = .ok u
        ∧ req.URL = { u with Host := url.removeEmptyPort u.Host })
    ∧ (∀ scheme authority : List Char,
        host = String.mk (scheme ++ "://".toList ++ authority) →
        scheme ≠ [] → (∀ c ∈ scheme, c.isAlpha = true) →
        (∀ c ∈ authority, c ≠ '/' ∧ c ≠ '?' ∧ c ≠ '#' ∧ 32 ≤ c.toNat ∧ c.toNat ≠ 127) →
        (∀ c ∈ path.toList, url.plain c = true) →
        req.URL.Scheme = String.mk (scheme.map Char.toLower)
        ∧ (∃ user h, w.parseAuthority (String.mk authority) = .ok (user, h)
            ∧ req.URL.User = user ∧ req.URL.Host = url.removeEmptyPort h)
        ∧ req.URL.RequestURI = "/" ++ path
        ∧ req.URL.Opaque = "" ∧ req.URL.RawQuery = "" ∧ req.URL.ForceQuery = false
        ∧ req.URL.Fragment = [])
    ∧ lnd.CallMake w method path params = (Lnd.CallMake.client w lnd).Do w req := by
  obtain ⟨tls_cert, macaroon, -, hm, hl, -⟩ := Connect_returned w host _ _ lnd hconn
  rw [hmac] at hm
  injection hm with hm
  subst hm
  have hf := CallMake_req_fields w lnd method path params req hreq
  subst hl
  refine ⟨hf.1, ?_, ?_, ?_, hf.2, ?_, CallMake_eq_Do w _ method path params req hreq⟩
  · simp [hex.EncodeToString, String.length, hex.Encode_length]
  · intro c hc
    exact hex.Encode_mem b c hc
  · intro i v hv
    have hv16 : v.toNat < 256 := v.val.isLt
    have h := hex.Encode_getElem? b i v hv
    have g : ∀ n, n < 16 → some (hex.hextable.getD n '0') = hex.hextable[n]? := by
      intro n hn
      interval_cases n <;> rfl
    exact ⟨h.1.trans (g _ (by omega)), h.2.trans (g _ (by omega))⟩
  · intro scheme authority hhost hs hsa ha hp
    obtain ⟨u, hu, hreqURL⟩ := hf.2
    have htext : host ++ "/" ++ path =
        String.mk (scheme ++ "://".toList ++ authority ++ '/' :: path.toList) := by
      rw [hhost]
      apply String.ext
      simp [String.data_append, String.toList]
    simp only [] at hu
    rw [htext] at hu
    obtain ⟨user, h, hauth, hueq⟩ :=
      url.Parse_plain w scheme authority path.toList hs hsa ha hp u hu
    have huri := url.RequestURI_plain (String.mk (scheme.map Char.toLower)) user
      (url.removeEmptyPort h) path.toList hp
    have hpath : String.mk ('/' :: path.toList) = "/" ++ path := by
      apply String.ext
      simp [String.data_append, String.toList]
    rw [hreqURL, hueq]
    refine ⟨rfl, ⟨user, h, hauth, rfl, rfl⟩, ?_, rfl, rfl, rfl, rfl⟩
    rw [← hpath]
    exact huri

/-- C7, amended, at the example node: the request of `GetInfo` carries the
hex text of the seven macaroon bytes and goes to `https`, `localhost:8080`
with the target `/v1/getinfo`. -/
theorem Connect_requests_carry_macaroon_witness :
    Connect demo.world demo.host "tls.cert" "admin.macaroon" = .returned demo.client
    ∧ demo.world.ReadFile "admin.macaroon" = .ok demo.macaroon
    ∧ Lnd.CallMake.req demo.world demo.client "GET" "v1/getinfo" none =
      .ok ⟨"GET", demo.target "/v1/getinfo",
        [("Grpc-Metadata-Macaroon", ["0201036c6e64ff"])], "null"⟩
    ∧ hex.EncodeToString demo.macaroon = "0201036c6e64ff"
    ∧ http.Header.Get [("Grpc-Metadata-Macaroon", ["0201036c6e64ff"])] "Grpc-Metadata-macaroon" =
      hex.EncodeToString demo.macaroon
    ∧ demo.host = String.mk ("https".toList ++ "://".toList ++ "localhost:8080".toList)
    ∧ (∀ c ∈ "v1/getinfo".toList, url.plain c = true)
    ∧ (demo.target "/v1/getinfo").RequestURI = "/" ++ "v1/getinfo" :=
  have hconn : Connect demo.world demo.host "tls.cert" "admin.macaroon" =
      .returned demo.client := by decide
  have hmac : demo.world.ReadFile "admin.macaroon" = .ok demo.macaroon := by decide
  have hreq : Lnd.CallMake.req demo.world demo.client "GET" "v1/getinfo" none =
      .ok ⟨"GET", demo.target "/v1/getinfo",
        [("Grpc-Metadata-Macaroon", ["0201036c6e64ff"])], "null"⟩ := by decide
  have hhost : demo.host =
      String.mk ("https".toList ++ "://".toList ++ "localhost:8080".toList) := by decide
  have hplain : ∀ c ∈ "v1/getinfo".toList, url.plain c = true := by decide
  have hthm := Connect_requests_carry_macaroon demo.world demo.host "tls.cert"
    "admin.macaroon" demo.client demo.macaroon hconn hmac "GET" "v1/getinfo" none _ hreq
  ⟨hconn, hmac, hreq, by decide, hthm.1, hhost, hplain,
    (hthm.2.2.2.2.2.1 "https".toList "localhost:8080".toList hhost (by decide) (by decide)
      (by decide) hplain).2.2.1⟩

/-- C8, as stated, fails: for the empty body and for an HTML page `CallJSON`
returns a nil error (and the zero result), not a decode error; and for the
plain text `404 page not found` it returns a nil error and the number 404. -/
theorem CallJSON_unparseable_body_succeeds :
    demo.client.CallMake demo.world "GET" "v1/invoices" none = .ok ⟨200, ⟨"", none⟩⟩
    ∧ demo.client.ListInvoices demo.world = (gjson.Result.zero, none)
    ∧ demo.client.CallMake demo.world "GET" "v1/balance/channels" none =
      .ok ⟨502, ⟨"<html><body>502 Bad Gateway</body></html>", none⟩⟩
    ∧ demo.client.BalanceChannel demo.world = (gjson.Result.zero, none)
    ∧ demo.client.CallMake demo.world "GET" "v1/transactions" none =
      .ok ⟨404, ⟨"404 page not found\n", none⟩⟩
    ∧ demo.client.CallJSON demo.world "GET" "v1/transactions" none =
      (⟨.Number, "404", "", ⟨0x4079400000000000⟩⟩, none) := by
  decide

/-- C8, amended. `CallJSON` has no decode failure. For every body from which
`gjson.ParseBytes` reads nothing and returns the zero result, which it does
for the empty body and for every body that starts with `<`, `CallJSON`
returns a nil error together with the zero `gjson.Result`; and whenever it
returns an error, that error is the one of `CallMake`, the one of reading
the body, the sentinel error or the error made of the `error` field. -/
theorem CallJSON_no_decode_error (w : World) (l : Lnd) (method path : String)
    (params : Params) :
    (∀ (status : Nat) (body : String),
      l.CallMake w method path params = .ok ⟨status, ⟨body, none⟩⟩ →
      gjson.ParseBytes w body = gjson.Result.zero →
      l.CallJSON w method path params = (gjson.Result.zero, none))
    ∧ gjson.ParseBytes w "" = gjson.Result.zero
    ∧ (∀ rest : String, gjson.ParseBytes w ("<" ++ rest) = gjson.Result.zero)
    ∧ (∀ err : GoError, (l.CallJSON w method path params).2 = some err →
      l.CallMake w method path params = .error err
      ∨ (∃ res, l.CallMake w method path params = .ok res ∧ res.Body.err = some err)
      ∨ (∃ res, l.CallMake w method path params = .ok res ∧ res.Body.err = none
          ∧ (gjson.ParseBytes w res.Body.data).String w = "0"
          ∧ err = fmt.Errorf res.Body.data)
      ∨ (∃ res, l.CallMake w method path params = .ok res ∧ res.Body.err = none
          ∧ (gjson.ParseBytes w res.Body.data).String w ≠ "0"
          ∧ ((gjson.ParseBytes w res.Body.data).Get w "error").String w ≠ ""
          ∧ err = fmt.Errorf
              ((((gjson.ParseBytes w res.Body.data).Get w "error").Get w "message").String w))) := by
  refine ⟨?_, rfl, ?_, ?_⟩
  · intro status body hres hparse
    unfold Lnd.CallJSON
    rw [hres]
    simp only [ioutil.ReadAll, hparse]
    rfl
  · intro rest
    have hl : ("<" ++ rest).toList = '<' :: rest.toList := by
      simp [String.toList, String.data_append]
    unfold gjson.ParseBytes
    rw [hl]
    rfl
  · intro err h
    unfold Lnd.CallJSON at h
    cases hc : l.CallMake w method path params with
    | error e =>
      simp only [hc] at h
      left
      injection h with h
      rw [h]
    | ok res =>
      right
      simp only [hc, ioutil.ReadAll] at h
      cases hb : res.Body.err with
      | some e =>
        left
        simp only [hb] at h
        injection h with h
        exact ⟨res, rfl, by rw [hb, h]⟩
      | none =>
        right
        simp only [hb] at h
        by_cases h0 : (gjson.ParseBytes w res.Body.data).String w = "0"
        · left
          simp only [h0, if_true] at h
          injection h with h
          exact ⟨res, rfl, hb, h0, h.symm⟩
        · right
          simp only [h0, if_false] at h
          by_cases he : ((gjson.ParseBytes w res.Body.data).Get w "error").String w = ""
          · simp [he] at h
          · simp only [ne_eq, he, not_false_eq_true, if_true] at h
            injection h with h
            exact ⟨res, rfl, hb, h0, he, h.symm⟩

/-- C8, amended, at the example node: the HTML page that answers
`GET v1/balance/channels` gives a nil error and the zero result. -/
theorem CallJSON_no_decode_error_witness :
    demo.client.CallMake demo.world "GET" "v1/balance/channels" none =
      .ok ⟨502, ⟨"<html><body>502 Bad Gateway</body></html>", none⟩⟩
    ∧ demo.client.CallJSON demo.world "GET" "v1/balance/channels" none =
      (gjson.Result.zero, none) :=
  have hres : demo.client.CallMake demo.world "GET" "v1/balance/channels" none =
      .ok ⟨502, ⟨"<html><body>502 Bad Gateway</body></html>", none⟩⟩ := by decide
  ⟨hres, (CallJSON_no_decode_error demo.world demo.client "GET" "v1/balance/channels" none).1
    502 _ hres (by decide)⟩

/-- C9. `Connect` returns a client only when both files were read and the
`GetInfo` call on that client returned a nil error; when reading the
certificate file fails, when reading the macaroon file fails, or when
`GetInfo` returns an error, `Connect` ends in `log.Fatal` with that error and
returns no client. -/
theorem Connect_fatal_unless_live (w : World) (host tls_cert_path macaroon_path : String) :
    (∀ lnd : Lnd, Connect w host tls_cert_path macaroon_path = .returned lnd →
      ∃ tls_cert macaroon, w.ReadFile tls_cert_path = .ok tls_cert
        ∧ w.ReadFile macaroon_path = .ok macaroon
        ∧ lnd = ⟨⟨host, tls_cert, hex.EncodeToString macaroon⟩⟩
        ∧ (lnd.GetInfo w).2 = none)
    ∧ (∀ err, w.ReadFile tls_cert_path = .error err →
      Connect w host tls_cert_path macaroon_path = .fatal err)
    ∧ (∀ tls_cert err, w.ReadFile tls_cert_path = .ok tls_cert →
      w.ReadFile macaroon_path = .error err →
      Connect w host tls_cert_path macaroon_path = .fatal err)
    ∧ (∀ tls_cert macaroon err, w.ReadFile tls_cert_path = .ok tls_cert →
      w.ReadFile macaroon_path = .ok macaroon →
      (Lnd.GetInfo w ⟨⟨host, tls_cert, hex.EncodeToString macaroon⟩⟩).2 = some err →
      Connect w host tls_cert_path macaroon_path = .fatal err) := by
  refine ⟨fun lnd h => Connect_returned w host _ _ lnd h, ?_, ?_, ?_⟩
  · intro err hc
    unfold Connect
    rw [hc]
  · intro tls_cert err hc hm
    unfold Connect
    rw [hc, hm]
  · intro tls_cert macaroon err hc hm hg
    unfold Connect
    rw [hc, hm]
    simp only [hg]

/-- C9 in the example world: no node listens at `https://localhost:9`, the
`GetInfo` call fails and `Connect` ends in `log.Fatal`. -/
theorem Connect_fatal_unless_live_witness :
    demo.world.ReadFile "tls.cert" = .ok demo.cert
    ∧ demo.world.ReadFile "admin.macaroon" = .ok demo.macaroon
    ∧ (Lnd.GetInfo demo.world
        ⟨⟨"https://localhost:9", demo.cert, hex.EncodeToString demo.macaroon⟩⟩).2 =
      some ⟨"dial tcp: connection refused"⟩
    ∧ Connect demo.world "https://localhost:9" "tls.cert" "admin.macaroon" =
      .fatal ⟨"dial tcp: connection refused"⟩ :=
  have hc : demo.world.ReadFile "tls.cert" = .ok demo.cert := by decide
  have hm : demo.world.ReadFile "admin.macaroon" = .ok demo.macaroon := by decide
  have hg : (Lnd.GetInfo demo.world
        ⟨⟨"https://localhost:9", demo.cert, hex.EncodeToString demo.macaroon⟩⟩).2 =
      some ⟨"dial tcp: connection refused"⟩ := by decide
  ⟨hc, hm, hg,
    (Connect_fatal_unless_live demo.world "https://localhost:9" "tls.cert"
      "admin.macaroon").2.2.2 _ _ _ hc hm hg⟩

/-- C10. The root pool of the client `CallMake` builds is non-nil and holds
exactly the certificates found in `TlsCertData` (none, when none is found):
the roots of the platform play no part in the call.  When the server
presents a certificate, the call fails with the transport error of an
unknown authority if that certificate chains to no certificate of the pool,
and goes through to the exchange with the server if it chains to one. -/
theorem CallMake_pins_certificate (w : World) (l : Lnd) (method path : String)
    (params : Params) (req : http.Request)
    (hreq : Lnd.CallMake.req w l method path params = .ok req) :
    (Lnd.CallMake.client w l).Transport.TLSClientConfig.RootCAs =
      some (w.ParsePEM l.Config.TlsCertData)
    ∧ l.CallMake w method path params = (Lnd.CallMake.client w l).Do w req
    ∧ (∀ (srv : Server) (leaf : x509.Certificate),
        w.Dial req.URL.Scheme req.URL.Host = .ok srv → srv.Certificate = some leaf →
        ((w.ParsePEM l.Config.TlsCertData).any (w.ChainsTo leaf) = false →
          l.CallMake w method path params = .error (w.UnknownAuthority req))
        ∧ ((w.ParsePEM l.Config.TlsCertData).any (w.ChainsTo leaf) = true →
          l.CallMake w method path params = srv.RoundTrip req))
    ∧ (∀ roots : x509.CertPool,
        l.CallMake { w with SystemRoots := roots } method path params =
          l.CallMake w method path params) := by
  have hpool : (Lnd.CallMake.client w l).Transport.TLSClientConfig.RootCAs =
      some (w.ParsePEM l.Config.TlsCertData) := by
    simp [Lnd.CallMake.client, x509.NewCertPool, x509.CertPool.AppendCertsFromPEM]
  have hdo := CallMake_eq_Do w l method path params req hreq
  refine ⟨hpool, hdo, ?_, ?_⟩
  · intro srv leaf hd hleaf
    constructor
    · intro hany
      rw [hdo]
      unfold http.Client.Do
      rw [hd]
      simp only [hleaf, hpool, hany]
      rfl
    · intro hany
      rw [hdo]
      unfold http.Client.Do
      rw [hd]
      simp only [hleaf, hpool, hany]
      rfl
  · intro roots
    rfl

/-- C10 in the intercepted world: the server certificate chains to a root of
the platform and not to the pinned certificate, and the call fails. -/
theorem CallMake_pins_certificate_witness :
    Lnd.CallMake.req demo.intercepted demo.client "GET" "v1/getinfo" none =
      .ok ⟨"GET", demo.target "/v1/getinfo",
        [("Grpc-Metadata-Macaroon", ["0201036c6e64ff"])], "null"⟩
    ∧ demo.intercepted.SystemRoots.any (demo.intercepted.ChainsTo demo.otherCert) = true
    ∧ (demo.intercepted.ParsePEM demo.client.Config.TlsCertData).any
        (demo.intercepted.ChainsTo demo.otherCert) = false
    ∧ demo.client.CallMake demo.intercepted "GET" "v1/getinfo" none =
      .error ⟨"Get \"https://localhost:8080/v1/getinfo\": " ++
        "x509: certificate signed by unknown authority"⟩ :=
  have hreq : Lnd.CallMake.req demo.intercepted demo.client "GET" "v1/getinfo" none =
      .ok ⟨"GET", demo.target "/v1/getinfo",
        [("Grpc-Metadata-Macaroon", ["0201036c6e64ff"])], "null"⟩ := by decide
  have hany : (demo.intercepted.ParsePEM demo.client.Config.TlsCertData).any
        (demo.intercepted.ChainsTo demo.otherCert) = false := by decide
  ⟨hreq, by decide, hany,
    ((CallMake_pins_certificate demo.intercepted demo.client "GET" "v1/getinfo" none _
      hreq).2.2.1 _ demo.otherCert rfl rfl).1 hany⟩

end lnd
